import Mathlib

/-!
Verification of the swap-routing core of the ityfuzz repository
(src/evm/tokens/mod.rs): the `TokenContext` buy/sell traversal engine,
`SwapInfo`/`SwapData` route discovery and the `concat_path` merge.

The single-hop pool implementations (`UniswapPairContext::transform`,
`WethContext::transform`, `initial_transfer`) and the VM state live outside
the source under scrutiny; they are modelled as an oracle `Env` whose calls
are threaded through an abstract state `S` and recorded in an event trace.
Rust panics (`unwrap`, `assert!`, `expect`, index out of bounds) are
modelled by the `Outcome.panicked` constructor, and `Option::None` results
by `Outcome.ok none`.
-/

namespace ItyFuzz

/-- EVMAddress modelled as a natural number; `EVMAddress::zero()` is `0`. -/
abbrev Addr := Nat

/-- The closed pair-context union of the source (`PairContextTy`): a Uniswap
V2 style AMM pair carrying its pool address, or a wrapped-native (WETH)
pseudo-pool carrying the wrapped asset address. -/
inductive PairContextTy where
  | Uniswap (pair_address : Addr)
  | Weth (weth_address : Addr)
  deriving DecidableEq, Repr, Inhabited

/-- `PathContext`: an ordered hop sequence from the token to the native asset. -/
structure PathContext where
  route : List PairContextTy
  deriving DecidableEq, Repr, Inhabited

/-- `TokenContext`: the candidate routes of one token plus the wrapped-native
flag and address. -/
structure TokenContext where
  swaps : List PathContext
  is_weth : Bool
  weth_address : Addr
  deriving DecidableEq, Repr, Inhabited

/-- One observable side effect of a traversal: a `transform` call on a hop
(the loop index `nth`, the hop, source, destination, input amount, direction
and the oracle's result are recorded), or an `initial_transfer` call. -/
inductive Event where
  | transform (nth : Nat) (pair : PairContextTy) (src : Addr) (dst : Addr)
      (amount : Nat) (reverse : Bool) (res : Option (Addr × Nat))
  | initialTransfer (src : Addr) (dst : Addr) (amount : Nat)
  deriving DecidableEq, Repr

/-- The external collaborators of the traversal engine, modelled as an oracle
over an abstract mutable state `S`: `transform` is the single-hop pair
transform (returning the receiver and output amount on success), and
`initial_transfer` is the pre-swap pull transfer that exists on AMM hops;
`get_rand_caller` models `state.get_rand_caller()`. -/
structure Env (S : Type) where
  transform : PairContextTy → Addr → Addr → Nat → Bool → S → Option (Addr × Nat) × S
  initial_transfer : Addr → Addr → Nat → S → S
  get_rand_caller : S → Addr × S

/-- Result of a whole `buy`/`sell` call: the returned `Option<()>` with the
final state and the event trace, or a Rust panic with the trace up to it. -/
inductive Outcome (S : Type) where
  | ok (r : Option Unit) (s : S) (tr : List Event)
  | panicked (msg : String) (tr : List Event)
  deriving Repr, DecidableEq

/-- The trace of a traversal outcome. -/
def Outcome.trace {S : Type} : Outcome S → List Event
  | .ok _ _ tr => tr
  | .panicked _ tr => tr

/-- True when the call completed and returned `None`. -/
def Outcome.returnedNone {S : Type} : Outcome S → Bool
  | .ok none _ _ => true
  | _ => false

/-- True when the call panicked. -/
def Outcome.isPanicked {S : Type} : Outcome S → Bool
  | .panicked _ _ => true
  | _ => false

/-- Prepend already-recorded events to an outcome's trace. -/
def prependEvs {S : Type} (evs : List Event) : Outcome S → Outcome S
  | .ok r s tr => .ok r s (evs ++ tr)
  | .panicked m tr => .panicked m (evs ++ tr)

/-- The per-hop destination of the buy loop: the ultimate recipient when the
hop is final (`nth == path_len - 1`), otherwise the pool address of the hop
at index `path_len - nth - 2` in route order; `none` encodes the
`panic!("Invalid weth context")` taken when that hop is a `Weth` context. -/
def buyNext (route : List PairContextTy) (recipient : Addr) (nth : Nat) : Option Addr :=
  if nth = route.length - 1 then some recipient
  else
    match route.getD (route.length - nth - 2) default with
    | .Uniswap a => some a
    | .Weth _ => none

/-- The hop loop of `TokenContext::buy`: iterates over the reversed route
(`rest` is the still-unprocessed suffix of `route.reverse`, `nth` the loop
index), threading the current input amount and the current sender
(`None` before the first successful hop). Mirrors mod.rs lines 176-238. -/
def buyHops {S : Type} (env : Env S) (route : List PairContextTy) (recipient : Addr)
    (amount0 : Nat) : List PairContextTy → Nat → Nat → Option Addr → S → Outcome S
  | [], _, _, _, s => .ok (some ()) s []
  | pair :: rest, nth, cur, sender, s =>
    match buyNext route recipient nth with
    | none => .panicked "Invalid weth context" []
    | some nxt =>
      match pair with
      | .Uniswap p =>
        match sender with
        | none => .panicked "called Option::unwrap on a None value" []
        | some sndr =>
          match env.transform (.Uniswap p) sndr nxt cur true s with
          | (some (receiver, amt), s1) =>
            prependEvs [Event.transform nth (.Uniswap p) sndr nxt cur true (some (receiver, amt))]
              (buyHops env route recipient amount0 rest (nth + 1) amt (some receiver) s1)
          | (none, s1) =>
            .ok none s1 [Event.transform nth (.Uniswap p) sndr nxt cur true none]
      | .Weth w =>
        match sender with
        | some _ => .panicked "assertion failed: current_sender.is_none()" []
        | none =>
          match env.transform (.Weth w) recipient nxt amount0 true s with
          | (some r, s1) =>
            prependEvs [Event.transform nth (.Weth w) recipient nxt amount0 true (some r)]
              (buyHops env route recipient amount0 rest (nth + 1) cur (some recipient) s1)
          | (none, _) =>
            .panicked "Weth failed" [Event.transform nth (.Weth w) recipient nxt amount0 true none]

/-- `self.swaps[seed[0] as usize % self.swaps.len()]`, the seed-driven route
selection of both `buy` and `sell`. -/
def chosenRoute (ctx : TokenContext) (b : Nat) : List PairContextTy :=
  (ctx.swaps.getD (b % ctx.swaps.length) default).route

/-- `TokenContext::buy` (mod.rs lines 148-241). The wrapped-native branch
reads `swaps[0].route[0]` (panicking when absent or not a `Weth` context),
invokes one deposit-direction wrap transform with the recipient as source and
destination, and ignores its result. The general branch returns `None` on an
empty route set, selects the route from `seed[0]`, and runs the hop loop in
reverse route order starting with no sender. -/
def TokenContext.buy {S : Type} (env : Env S) (ctx : TokenContext) (amount_in : Nat)
    (recipient : Addr) (seed : List Nat) (s : S) : Outcome S :=
  if ctx.is_weth then
    match ctx.swaps with
    | [] => .panicked "index out of bounds" []
    | p :: _ =>
      match p.route with
      | [] => .panicked "index out of bounds" []
      | .Weth w :: _ =>
        .ok (some ()) (env.transform (.Weth w) recipient recipient amount_in true s).2
          [Event.transform 0 (.Weth w) recipient recipient amount_in true
            (env.transform (.Weth w) recipient recipient amount_in true s).1]
      | .Uniswap _ :: _ => .panicked "Invalid weth context" []
  else
    match ctx.swaps with
    | [] => .ok none s []
    | _ :: _ =>
      match seed with
      | [] => .panicked "index out of bounds" []
      | b :: _ =>
        buyHops env (chosenRoute ctx b) recipient amount_in
          (chosenRoute ctx b).reverse 0 amount_in none s

/-- The per-hop destination of the sell loop: the zero/native sentinel when
final, otherwise the following pool's address — except that a following
`Weth` hop makes the destination a freshly drawn fuzzer caller address
(`state.get_rand_caller()`, which advances the state). -/
def sellNext {S : Type} (env : Env S) (route : List PairContextTy) (nth : Nat)
    (s : S) : Addr × S :=
  if nth = route.length - 1 then (0, s)
  else
    match route.getD (nth + 1) default with
    | .Uniswap a => (a, s)
    | .Weth _ => env.get_rand_caller s

/-- The one-time pre-swap step of an AMM hop in the sell loop: while
`is_first` holds, `initial_transfer(current_sender, pair_address, amount)`
is performed (its result is not checked) before the transform. -/
def sellFirstStep {S : Type} (env : Env S) (p : Addr) (sender : Addr) (cur : Nat)
    (isFirst : Bool) (s : S) : S × List Event :=
  if isFirst then (env.initial_transfer sender p cur s, [Event.initialTransfer sender p cur])
  else (s, [])

/-- The hop loop of `TokenContext::sell`: iterates in forward route order
(`rest` is the unprocessed suffix of `route`, `nth` the loop index),
performing the one-time `initial_transfer` into the pool of the first AMM
hop encountered while `is_first` still holds. Mirrors mod.rs lines 275-348. -/
def sellHops {S : Type} (env : Env S) (route : List PairContextTy) :
    List PairContextTy → Nat → Nat → Addr → Bool → S → Outcome S
  | [], _, _, _, _, s => .ok (some ()) s []
  | pair :: rest, nth, cur, sender, isFirst, s =>
    match sellNext env route nth s with
    | (nxt, s0) =>
      match pair with
      | .Uniswap p =>
        match sellFirstStep env p sender cur isFirst s0 with
        | (s1, preEv) =>
          match env.transform (.Uniswap p) sender nxt cur false s1 with
          | (some (receiver, amt), s2) =>
            prependEvs (preEv ++ [Event.transform nth (.Uniswap p) sender nxt cur false (some (receiver, amt))])
              (sellHops env route rest (nth + 1) amt receiver false s2)
          | (none, s2) =>
            .ok none s2 (preEv ++ [Event.transform nth (.Uniswap p) sender nxt cur false none])
      | .Weth w =>
        match env.transform (.Weth w) sender nxt cur false s0 with
        | (some r, s1) =>
          prependEvs [Event.transform nth (.Weth w) sender nxt cur false (some r)]
            (sellHops env route rest (nth + 1) cur sender isFirst s1)
        | (none, _) =>
          .panicked "Weth failed" [Event.transform nth (.Weth w) sender nxt cur false none]

/-- `TokenContext::sell` (mod.rs lines 244-351). The wrapped-native branch
invokes one withdraw-direction wrap transform towards the zero sentinel and
discards its result; the general branch mirrors `buy` but walks the route
forward with the caller as initial sender. -/
def TokenContext.sell {S : Type} (env : Env S) (ctx : TokenContext) (amount_in : Nat)
    (src : Addr) (seed : List Nat) (s : S) : Outcome S :=
  if ctx.is_weth then
    match ctx.swaps with
    | [] => .panicked "index out of bounds" []
    | p :: _ =>
      match p.route with
      | [] => .panicked "index out of bounds" []
      | .Weth w :: _ =>
        .ok (some ()) (env.transform (.Weth w) src 0 amount_in false s).2
          [Event.transform 0 (.Weth w) src 0 amount_in false
            (env.transform (.Weth w) src 0 amount_in false s).1]
      | .Uniswap _ :: _ => .panicked "Invalid weth context" []
  else
    match ctx.swaps with
    | [] => .ok none s []
    | _ :: _ =>
      match seed with
      | [] => .panicked "index out of bounds" []
      | b :: _ =>
        sellHops env (chosenRoute ctx b) (chosenRoute ctx b) 0 amount_in src true s

/-! ## Route discovery: `SwapType`, `SwapInfo`, `SwapData` -/

/-- The four known router function selectors (mod.rs lines 39-45). -/
def SWAP_DEPOSIT : List Nat := [0xd0, 0xe3, 0x0d, 0xb0]

/-- Selector of `withdraw`. -/
def SWAP_WITHDRAW : List Nat := [0x2e, 0x1a, 0x7d, 0x4d]

/-- Selector of `swapExactETHForTokensSupportingFeeOnTransferTokens`. -/
def SWAP_BUY : List Nat := [0xb6, 0xf9, 0xde, 0x95]

/-- Selector of `swapExactTokensForETHSupportingFeeOnTransferTokens`. -/
def SWAP_SELL : List Nat := [0x79, 0x1a, 0xc9, 0x47]

/-- The closed swap-intent enum. -/
inductive SwapType where
  | Deposit
  | Buy
  | Withdraw
  | Sell
  deriving DecidableEq, Repr, Inhabited, Hashable

/-- A decoded ABI argument as far as `SwapInfo::try_new` inspects it: either
an `AArray` of further values, or any non-array value (`other`) carrying its
textual rendering. Downcasts to `AArray` succeed exactly on `arr`. -/
inductive ABIVal where
  | arr (data : List ABIVal)
  | other (text : String)
  deriving Repr

/-- Modelled from the spec: the textual rendering (`x.b.to_string()`) of a
path element; the `Display` implementation lives outside the analysed
sources, so an abstract stand-in is used (the claims never depend on the
concrete strings produced). -/
def abiToString : ABIVal → String
  | .arr _ => "<array>"
  | .other t => t

/-- A decoded call: the 4-byte function selector and the decoded argument
value (`BoxedABI`). -/
structure BoxedABI where
  function : List Nat
  b : ABIVal
  deriving Repr

/-- Modelled from the spec: `checksum` (src/evm/types.rs is not among the
analysed sources) produces a checksummed textual form of an address; an
injective textual rendering stands in for it. -/
def checksum (a : Addr) : String := toString a

/-- A reconstructed swap observation. -/
structure SwapInfo where
  ty : SwapType
  target : String
  path : List String
  deriving DecidableEq, Repr, Inhabited

/-- Result of `SwapInfo::try_new`: a parsed `SwapInfo`, a silent `None`
(`skip`), or a Rust panic. -/
inductive TryNew where
  | ok (info : SwapInfo)
  | skip
  | panicked (msg : String)
  deriving Repr

/-- Result of the inner `get_path` closure of `try_new`: the extracted path,
a silent failure when the top-level argument value is not an array
(`downcast_mut::<AArray>` returns `None`), or a panic — `args.data[idx]`
panics when the index is out of bounds, and
`.downcast_ref::<AArray>().unwrap()` panics when the element there is not an
array. -/
inductive PathRes where
  | found (path : List String)
  | notArr
  | panicked (msg : String)
  deriving Repr

/-- The `get_path` closure of `SwapInfo::try_new` (mod.rs lines 437-452). -/
def get_path (abi : BoxedABI) (idx : Nat) : PathRes :=
  match abi.b with
  | .other _ => .notArr
  | .arr data =>
    match data.get? idx with
    | none => .panicked "index out of bounds"
    | some (.other _) => .panicked "called Option::unwrap on a None value"
    | some (.arr inner) => .found (inner.map abiToString)

/-- `SwapInfo::try_new` (mod.rs lines 436-468): matches the selector against
the four known ones (Buy extracts the path from argument index 1, Sell from
index 2, Deposit/Withdraw use the empty path, anything else is ignored). -/
def SwapInfo.try_new (target : Addr) (abi : BoxedABI) : TryNew :=
  let mk : SwapType → PathRes → TryNew := fun ty pr =>
    match pr with
    | .found p => .ok { ty := ty, target := checksum target, path := p }
    | .notArr => .skip
    | .panicked m => .panicked m
  if abi.function = SWAP_BUY then mk .Buy (get_path abi 1)
  else if abi.function = SWAP_SELL then mk .Sell (get_path abi 2)
  else if abi.function = SWAP_DEPOSIT then mk .Deposit (.found [])
  else if abi.function = SWAP_WITHDRAW then mk .Withdraw (.found [])
  else .skip

/-- The backward scan of `SwapInfo::concat_path`: the greatest index `i` with
`path[i] = x` (the Rust loop runs `i` from the end and breaks at the first
hit), or `none` when no element matches. -/
def lastMatchIdx : List String → String → Option Nat
  | [], _ => none
  | a :: rest, x =>
    match lastMatchIdx rest x with
    | some j => some (j + 1)
    | none => if a = x then some 0 else none

/-- `SwapInfo::concat_path` (mod.rs lines 470-481). The loop condition reads
`new_path[0]`, so a nonempty existing path combined with an empty `new_path`
is an index-out-of-bounds panic (modelled as `none`); an empty existing path
skips the loop entirely and appends `new_path`. On a hit at index `idx` the
existing path is truncated to length `idx` before appending. -/
def SwapInfo.concat_path (info : SwapInfo) (new_path : List String) : Option SwapInfo :=
  match info.path with
  | [] => some { info with path := new_path }
  | _ :: _ =>
    match new_path with
    | [] => none
    | h :: _ =>
      some { info with path := info.path.take ((lastMatchIdx info.path h).getD info.path.length) ++ new_path }

/-- `SwapData`: the per-target mapping from `SwapType` to `SwapInfo`,
modelled as an association list (the source uses a `HashMap`). -/
structure SwapData where
  inner : List (SwapType × SwapInfo)
  deriving DecidableEq, Repr, Inhabited

/-- Lookup of the entry for a swap type. -/
def SwapData.find? (sd : SwapData) (ty : SwapType) : Option SwapInfo :=
  (sd.inner.find? (fun kv => kv.fst == ty)).map Prod.snd

/-- `SwapData::push` (mod.rs lines 388-397): parse the call; on a vacant
entry insert the new `SwapInfo`, otherwise merge its path into the existing
entry with `concat_path`. A panic anywhere (in `try_new` or in
`concat_path`) is modelled as `none`. -/
def SwapData.push (sd : SwapData) (addr : Addr) (abi : BoxedABI) : Option SwapData :=
  match SwapInfo.try_new addr abi with
  | .skip => some sd
  | .panicked _ => none
  | .ok newInfo =>
    match sd.find? newInfo.ty with
    | none => some { inner := sd.inner ++ [(newInfo.ty, newInfo)] }
    | some old =>
      (old.concat_path newInfo.path).map fun merged =>
        { inner := sd.inner.map fun kv => if kv.fst == newInfo.ty then (kv.fst, merged) else kv }

/-! ## Concrete fixtures used by counterexamples and witnesses -/

/-- An oracle over state `Nat` whose transforms always succeed, sending the
input amount to the destination and bumping the state counter. -/
def okEnv : Env Nat :=
  { transform := fun _ _ dst amt _ s => (some (dst, amt), s + 1)
    initial_transfer := fun _ _ _ s => s + 1
    get_rand_caller := fun s => (1000 + s, s + 1) }

/-- An oracle whose transforms always fail. -/
def failEnv : Env Nat :=
  { transform := fun _ _ _ _ _ s => (none, s + 1)
    initial_transfer := fun _ _ _ s => s + 1
    get_rand_caller := fun s => (1000 + s, s + 1) }

/-- A non-wrapped token with the single all-AMM route `[PoolA 11, PoolB 22]`. -/
def ctxAB : TokenContext :=
  { swaps := [{ route := [.Uniswap 11, .Uniswap 22] }], is_weth := false, weth_address := 5 }

/-- A non-wrapped token whose single route ends in the wrap hop required by
the buy loop: `[PoolA 11, PoolB 22, Weth 5]`. -/
def ctxGood : TokenContext :=
  { swaps := [{ route := [.Uniswap 11, .Uniswap 22, .Weth 5] }], is_weth := false, weth_address := 5 }

/-- A non-wrapped token whose single route is just a wrap hop. -/
def ctxW5 : TokenContext :=
  { swaps := [{ route := [.Weth 5] }], is_weth := false, weth_address := 5 }

/-- A wrapped-native token context (`is_weth = true`). -/
def ctxWethTok : TokenContext :=
  { swaps := [{ route := [.Weth 9] }], is_weth := true, weth_address := 9 }

/-- A non-wrapped token with route `[PoolA 11, Weth 5]` (wrap hop processed
first and mid-route during a buy). -/
def ctxUW : TokenContext :=
  { swaps := [{ route := [.Uniswap 11, .Weth 5] }], is_weth := false, weth_address := 5 }

/-- A non-wrapped token with no known routes. -/
def ctxEmpty : TokenContext := { swaps := [], is_weth := false, weth_address := 5 }

/-- The `ctxAB` route duplicated, so that different seeds can select equal
routes out of differently shaped route sets. -/
def ctxABdup : TokenContext :=
  { swaps := [{ route := [.Uniswap 11, .Uniswap 22] },
              { route := [.Uniswap 11, .Uniswap 22] }],
    is_weth := false, weth_address := 5 }

/-- The empty swap-data mapping. -/
def emptySD : SwapData := { inner := [] }

/-! ## Trace observations -/

/-- The hops on which `transform` was invoked, in call order. -/
def transformPairs : List Event → List PairContextTy
  | [] => []
  | .transform _ p _ _ _ _ _ :: rest => p :: transformPairs rest
  | .initialTransfer _ _ _ :: rest => transformPairs rest

/-- Source address of an event. -/
def Event.srcOf : Event → Addr
  | .transform _ _ a _ _ _ _ => a
  | .initialTransfer a _ _ => a

/-- Input amount of an event. -/
def Event.amountOf : Event → Nat
  | .transform _ _ _ _ n _ _ => n
  | .initialTransfer _ _ n => n

/-- The receiver/output pair of a successful AMM transform, else `none`. -/
def Event.uniSuccess : Event → Option (Addr × Nat)
  | .transform _ (.Uniswap _) _ _ _ _ (some ra) => some ra
  | _ => none

/-- True on a failed AMM transform call. -/
def Event.isFailedUniswap : Event → Bool
  | .transform _ (.Uniswap _) _ _ _ _ none => true
  | _ => false

/-- True on a failed wrap/unwrap transform call. -/
def Event.isFailedWeth : Event → Bool
  | .transform _ (.Weth _) _ _ _ _ none => true
  | _ => false

/-- True on an `initial_transfer` call. -/
def Event.isInitialTransfer : Event → Bool
  | .initialTransfer _ _ _ => true
  | _ => false

/-- Amount/sender threading between consecutive buy events: a successful AMM
hop hands its receiver as the next source and its output as the next input. -/
def buyStep (e e2 : Event) : Prop :=
  ∀ r a, e.uniSuccess = some (r, a) → e2.srcOf = r ∧ e2.amountOf = a

/-- The buy-side per-hop destination discipline: the recipient on the final
hop, otherwise the pool address of the hop at route index
`route.length - nth - 2` (the hop preceding the current one in route order),
which must be an AMM pair. -/
def dstRuleBuy (route : List PairContextTy) (recipient : Addr) : Event → Prop
  | .transform m _ _ edst _ _ _ =>
      (m = route.length - 1 → edst = recipient) ∧
      (m ≠ route.length - 1 → route.getD (route.length - m - 2) default = .Uniswap edst)
  | .initialTransfer _ _ _ => True

/-- The buy-side wrap-hop call discipline: a wrap hop is invoked with the
final recipient as source, the original input amount (not the threaded one),
the buy direction, at loop index 0 only, and with the per-hop destination
(`buyNext`), not with the recipient as destination unless the hop is final. -/
def wrapRuleBuy (route : List PairContextTy) (recipient : Addr) (amount0 : Nat) : Event → Prop
  | .transform m p esrc edst eamt erev _ =>
      ∀ w, p = .Weth w →
        esrc = recipient ∧ eamt = amount0 ∧ erev = true ∧ m = 0 ∧
        (m = route.length - 1 → edst = recipient) ∧
        (m ≠ route.length - 1 → route.getD (route.length - m - 2) default = .Uniswap edst)
  | .initialTransfer _ _ _ => True

/-- The sell-side per-hop destination discipline: the zero sentinel on the
final hop; otherwise the following pool's address, except that a following
wrap hop makes the destination a drawn fuzzer caller address. -/
def dstRuleSell {S : Type} (env : Env S) (route : List PairContextTy) : Event → Prop
  | .transform m _ _ edst _ _ _ =>
      (m = route.length - 1 → edst = 0) ∧
      (m ≠ route.length - 1 →
        (∀ a, route.getD (m + 1) default = .Uniswap a → edst = a) ∧
        (∀ w, route.getD (m + 1) default = .Weth w → ∃ s2, edst = (env.get_rand_caller s2).1))
  | .initialTransfer _ _ _ => True

/-- A greatest-hit witness for the backward scan of `concat_path`: `i` is an
in-range index whose element equals `x` and no later index matches. -/
def greatestHit (p : List String) (x : String) (i : Nat) : Prop :=
  i < p.length ∧ p.getD i "" = x ∧ ∀ j, i < j → j < p.length → p.getD j "" ≠ x

/-! ## Basic lemmas -/

theorem trace_prependEvs {S : Type} (evs : List Event) (o : Outcome S) :
    (prependEvs evs o).trace = evs ++ o.trace := by
  cases o <;> rfl

theorem returnedNone_prependEvs {S : Type} (evs : List Event) (o : Outcome S) :
    (prependEvs evs o).returnedNone = o.returnedNone := by
  cases o with
  | ok r s tr => cases r <;> rfl
  | panicked m tr => rfl

theorem sellFirstStep_true {S : Type} (env : Env S) (p sender : Addr) (cur : Nat) (s : S) :
    sellFirstStep env p sender cur true s
      = (env.initial_transfer sender p cur s, [Event.initialTransfer sender p cur]) := rfl

theorem sellFirstStep_false {S : Type} (env : Env S) (p sender : Addr) (cur : Nat) (s : S) :
    sellFirstStep env p sender cur false s = (s, []) := rfl

/-- Unfolding of `buy` on a non-wrapped token with a non-empty route set. -/
theorem buy_eq_hops {S : Type} (env : Env S) (ctx : TokenContext) (amt : Nat)
    (recipient : Addr) (b : Nat) (srest : List Nat) (s : S)
    (hW : ctx.is_weth = false) (hne : ctx.swaps ≠ []) :
    TokenContext.buy env ctx amt recipient (b :: srest) s
      = buyHops env (chosenRoute ctx b) recipient amt (chosenRoute ctx b).reverse 0 amt none s := by
  unfold TokenContext.buy
  rw [hW]
  cases hsw : ctx.swaps with
  | nil => exact absurd hsw hne
  | cons p ps => simp

/-- Unfolding of `sell` on a non-wrapped token with a non-empty route set. -/
theorem sell_eq_hops {S : Type} (env : Env S) (ctx : TokenContext) (amt : Nat)
    (src : Addr) (b : Nat) (srest : List Nat) (s : S)
    (hW : ctx.is_weth = false) (hne : ctx.swaps ≠ []) :
    TokenContext.sell env ctx amt src (b :: srest) s
      = sellHops env (chosenRoute ctx b) (chosenRoute ctx b) 0 amt src true s := by
  unfold TokenContext.sell
  rw [hW]
  cases hsw : ctx.swaps with
  | nil => exact absurd hsw hne
  | cons p ps => simp

/-! ## Invariants of the buy loop -/

/-- The hops transformed by the buy loop are an in-order prefix of the
hops it was asked to process. -/
theorem buyHops_order {S : Type} (env : Env S) (route : List PairContextTy)
    (recipient : Addr) (amount0 : Nat) :
    ∀ (rest : List PairContextTy) (nth cur : Nat) (sender : Option Addr) (s : S),
      ∃ t, transformPairs (buyHops env route recipient amount0 rest nth cur sender s).trace ++ t
        = rest := by
  intro rest
  induction rest with
  | nil => intro nth cur sender s; exact ⟨[], rfl⟩
  | cons pair rest2 ih =>
    intro nth cur sender s
    cases hbn : buyNext route recipient nth with
    | none =>
      exact ⟨pair :: rest2, by simp [buyHops, hbn, Outcome.trace, transformPairs]⟩
    | some nxt =>
      cases pair with
      | Uniswap p =>
        cases sender with
        | none =>
          exact ⟨.Uniswap p :: rest2, by simp [buyHops, hbn, Outcome.trace, transformPairs]⟩
        | some sndr =>
          cases hres : env.transform (.Uniswap p) sndr nxt cur true s with
          | mk res s1 =>
            cases res with
            | some ra =>
              obtain ⟨receiver, amt⟩ := ra
              obtain ⟨t, ht⟩ := ih (nth + 1) amt (some receiver) s1
              refine ⟨t, ?_⟩
              simp only [buyHops, hbn, hres, trace_prependEvs, List.singleton_append,
                transformPairs, List.cons_append]
              exact congrArg _ ht
            | none =>
              exact ⟨rest2, by simp [buyHops, hbn, hres, Outcome.trace, transformPairs]⟩
      | Weth w =>
        cases sender with
        | some v =>
          exact ⟨.Weth w :: rest2, by simp [buyHops, hbn, Outcome.trace, transformPairs]⟩
        | none =>
          cases hres : env.transform (.Weth w) recipient nxt amount0 true s with
          | mk res s1 =>
            cases res with
            | some r0 =>
              obtain ⟨t, ht⟩ := ih (nth + 1) cur (some recipient) s1
              refine ⟨t, ?_⟩
              simp only [buyHops, hbn, hres, trace_prependEvs, List.singleton_append,
                transformPairs, List.cons_append]
              exact congrArg _ ht
            | none =>
              exact ⟨rest2, by simp [buyHops, hbn, hres, Outcome.trace, transformPairs]⟩

theorem getLast_cons_ne {α : Type} (a : α) (l : List α) (h : l ≠ []) :
    (a :: l).getLast? = l.getLast? := by
  cases l with
  | nil => exact absurd rfl h
  | cons b t => rfl

theorem getLast_append_ne {α : Type} (l1 l2 : List α) (h : l2 ≠ []) :
    (l1 ++ l2).getLast? = l2.getLast? := by
  induction l1 with
  | nil => rfl
  | cons a t ih =>
    rw [List.cons_append, getLast_cons_ne a (t ++ l2)
      (fun hc => h (List.append_eq_nil.mp hc).2), ih]

/-- Characterisation of a successfully computed buy-side destination. -/
theorem buyNext_some {route : List PairContextTy} {recipient : Addr} {nth : Nat} {nxt : Addr}
    (h : buyNext route recipient nth = some nxt) :
    (nth = route.length - 1 → nxt = recipient) ∧
    (nth ≠ route.length - 1 → route.getD (route.length - nth - 2) default = .Uniswap nxt) := by
  unfold buyNext at h
  by_cases hf : nth = route.length - 1
  · rw [if_pos hf] at h
    injection h with h2
    exact ⟨fun _ => h2.symm, fun hc => absurd hf hc⟩
  · rw [if_neg hf] at h
    cases hg : route.getD (route.length - nth - 2) default with
    | Uniswap a =>
      rw [hg] at h
      injection h with h2
      exact ⟨fun hc => absurd hc hf, fun _ => by rw [h2]⟩
    | Weth w => rw [hg] at h; cases h

/-- Every transform event of the buy loop obeys the buy destination rule. -/
theorem buyHops_dst {S : Type} (env : Env S) (route : List PairContextTy)
    (recipient : Addr) (amount0 : Nat) :
    ∀ (rest : List PairContextTy) (nth cur : Nat) (sender : Option Addr) (s : S),
      ∀ e ∈ (buyHops env route recipient amount0 rest nth cur sender s).trace,
        dstRuleBuy route recipient e := by
  intro rest
  induction rest with
  | nil => intro nth cur sender s e he; simp [buyHops, Outcome.trace] at he
  | cons pair rest2 ih =>
    intro nth cur sender s e he
    cases hbn : buyNext route recipient nth with
    | none => simp [buyHops, hbn, Outcome.trace] at he
    | some nxt =>
      obtain ⟨hfin, hnot⟩ := buyNext_some hbn
      cases pair with
      | Uniswap p =>
        cases sender with
        | none => simp [buyHops, hbn, Outcome.trace] at he
        | some sndr =>
          cases hres : env.transform (.Uniswap p) sndr nxt cur true s with
          | mk res s1 =>
            cases res with
            | some ra =>
              obtain ⟨receiver, amt⟩ := ra
              simp only [buyHops, hbn, hres, trace_prependEvs, List.singleton_append] at he
              rcases List.mem_cons.mp he with rfl | hmem
              · exact ⟨hfin, hnot⟩
              · exact ih (nth + 1) amt (some receiver) s1 e hmem
            | none =>
              simp only [buyHops, hbn, hres, Outcome.trace] at he
              rcases List.mem_singleton.mp he with rfl
              exact ⟨hfin, hnot⟩
      | Weth w =>
        cases sender with
        | some v => simp [buyHops, hbn, Outcome.trace] at he
        | none =>
          cases hres : env.transform (.Weth w) recipient nxt amount0 true s with
          | mk res s1 =>
            cases res with
            | some r0 =>
              simp only [buyHops, hbn, hres, trace_prependEvs, List.singleton_append] at he
              rcases List.mem_cons.mp he with rfl | hmem
              · exact ⟨hfin, hnot⟩
              · exact ih (nth + 1) cur (some recipient) s1 e hmem
            | none =>
              simp only [buyHops, hbn, hres, Outcome.trace] at he
              rcases List.mem_singleton.mp he with rfl
              exact ⟨hfin, hnot⟩

/-- Every wrap-hop transform event of the buy loop obeys the wrap-call rule
(provided, as at the loop entry, that an absent sender implies index 0). -/
theorem buyHops_wrap {S : Type} (env : Env S) (route : List PairContextTy)
    (recipient : Addr) (amount0 : Nat) :
    ∀ (rest : List PairContextTy) (nth cur : Nat) (sender : Option Addr) (s : S),
      (sender = none → nth = 0) →
      ∀ e ∈ (buyHops env route recipient amount0 rest nth cur sender s).trace,
        wrapRuleBuy route recipient amount0 e := by
  intro rest
  induction rest with
  | nil => intro nth cur sender s hs e he; simp [buyHops, Outcome.trace] at he
  | cons pair rest2 ih =>
    intro nth cur sender s hs e he
    cases hbn : buyNext route recipient nth with
    | none => simp [buyHops, hbn, Outcome.trace] at he
    | some nxt =>
      obtain ⟨hfin, hnot⟩ := buyNext_some hbn
      cases pair with
      | Uniswap p =>
        cases sender with
        | none => simp [buyHops, hbn, Outcome.trace] at he
        | some sndr =>
          cases hres : env.transform (.Uniswap p) sndr nxt cur true s with
          | mk res s1 =>
            cases res with
            | some ra =>
              obtain ⟨receiver, amt⟩ := ra
              simp only [buyHops, hbn, hres, trace_prependEvs, List.singleton_append] at he
              rcases List.mem_cons.mp he with rfl | hmem
              · exact fun w hw => nomatch hw
              · exact ih (nth + 1) amt (some receiver) s1 (fun hc => nomatch hc) e hmem
            | none =>
              simp only [buyHops, hbn, hres, Outcome.trace] at he
              rcases List.mem_singleton.mp he with rfl
              exact fun w hw => nomatch hw
      | Weth w =>
        cases sender with
        | some v => simp [buyHops, hbn, Outcome.trace] at he
        | none =>
          cases hres : env.transform (.Weth w) recipient nxt amount0 true s with
          | mk res s1 =>
            cases res with
            | some r0 =>
              simp only [buyHops, hbn, hres, trace_prependEvs, List.singleton_append] at he
              rcases List.mem_cons.mp he with rfl | hmem
              · exact fun w2 _ => ⟨rfl, rfl, rfl, hs rfl, hfin, hnot⟩
              · exact ih (nth + 1) cur (some recipient) s1 (fun hc => nomatch hc) e hmem
            | none =>
              simp only [buyHops, hbn, hres, Outcome.trace] at he
              rcases List.mem_singleton.mp he with rfl
              exact fun w2 _ => ⟨rfl, rfl, rfl, hs rfl, hfin, hnot⟩

/-- The buy loop threads each successful AMM hop's receiver and output
amount into the next transform call; moreover the first recorded call uses
the current sender and amount. -/
theorem buyHops_chain {S : Type} (env : Env S) (route : List PairContextTy)
    (recipient : Addr) (amount0 : Nat) :
    ∀ (rest : List PairContextTy) (nth cur : Nat) (sender : Option Addr) (s : S),
      List.Chain' buyStep (buyHops env route recipient amount0 rest nth cur sender s).trace ∧
      (∀ v, sender = some v →
        ∀ e, (buyHops env route recipient amount0 rest nth cur sender s).trace.head? = some e →
          e.srcOf = v ∧ e.amountOf = cur) := by
  intro rest
  induction rest with
  | nil =>
    intro nth cur sender s
    exact ⟨List.chain'_nil, fun v hv e he => nomatch he⟩
  | cons pair rest2 ih =>
    intro nth cur sender s
    cases hbn : buyNext route recipient nth with
    | none =>
      refine ⟨?_, ?_⟩ <;> simp [buyHops, hbn, Outcome.trace]
    | some nxt =>
      cases pair with
      | Uniswap p =>
        cases sender with
        | none =>
          refine ⟨?_, ?_⟩ <;> simp [buyHops, hbn, Outcome.trace]
        | some sndr =>
          cases hres : env.transform (.Uniswap p) sndr nxt cur true s with
          | mk res s1 =>
            cases res with
            | some ra =>
              obtain ⟨receiver, amt⟩ := ra
              obtain ⟨ihchain, ihhead⟩ := ih (nth + 1) amt (some receiver) s1
              constructor
              · simp only [buyHops, hbn, hres, trace_prependEvs, List.singleton_append]
                refine List.Chain'.cons' ihchain ?_
                intro y hy r a hsucc
                have h1 : some (receiver, amt) = some (r, a) := hsucc
                injection h1 with h2
                obtain ⟨rfl, rfl⟩ : receiver = r ∧ amt = a :=
                  ⟨congrArg Prod.fst h2, congrArg Prod.snd h2⟩
                exact ihhead receiver rfl y (Option.mem_def.mp hy)
              · intro v hv e he
                simp only [buyHops, hbn, hres, trace_prependEvs, List.singleton_append,
                  List.head?_cons] at he
                injection he with he2
                subst he2
                injection hv with hv2
                subst hv2
                exact ⟨rfl, rfl⟩
            | none =>
              constructor
              · simp only [buyHops, hbn, hres, Outcome.trace]
                exact List.chain'_singleton _
              · intro v hv e he
                simp only [buyHops, hbn, hres, Outcome.trace, List.head?_cons] at he
                injection he with he2
                subst he2
                injection hv with hv2
                subst hv2
                exact ⟨rfl, rfl⟩
      | Weth w =>
        cases sender with
        | some v =>
          refine ⟨?_, ?_⟩ <;> simp [buyHops, hbn, Outcome.trace]
        | none =>
          cases hres : env.transform (.Weth w) recipient nxt amount0 true s with
          | mk res s1 =>
            cases res with
            | some r0 =>
              obtain ⟨ihchain, ihhead⟩ := ih (nth + 1) cur (some recipient) s1
              constructor
              · simp only [buyHops, hbn, hres, trace_prependEvs, List.singleton_append]
                refine List.Chain'.cons' ihchain ?_
                intro y hy r a hsucc
                exact nomatch hsucc
              · exact fun v hv => nomatch hv
            | none =>
              constructor
              · simp only [buyHops, hbn, hres, Outcome.trace]
                exact List.chain'_singleton _
              · exact fun v hv => nomatch hv

/-- Any failed AMM transform makes the buy loop return `None` and is its
final recorded action (hard stop, no retry). -/
theorem buyHops_fail {S : Type} (env : Env S) (route : List PairContextTy)
    (recipient : Addr) (amount0 : Nat) :
    ∀ (rest : List PairContextTy) (nth cur : Nat) (sender : Option Addr) (s : S),
      ∀ e ∈ (buyHops env route recipient amount0 rest nth cur sender s).trace,
        e.isFailedUniswap = true →
        (buyHops env route recipient amount0 rest nth cur sender s).returnedNone = true ∧
        (buyHops env route recipient amount0 rest nth cur sender s).trace.getLast? = some e := by
  intro rest
  induction rest with
  | nil => intro nth cur sender s e he; simp [buyHops, Outcome.trace] at he
  | cons pair rest2 ih =>
    intro nth cur sender s e he hfail
    cases hbn : buyNext route recipient nth with
    | none => simp [buyHops, hbn, Outcome.trace] at he
    | some nxt =>
      cases pair with
      | Uniswap p =>
        cases sender with
        | none => simp [buyHops, hbn, Outcome.trace] at he
        | some sndr =>
          cases hres : env.transform (.Uniswap p) sndr nxt cur true s with
          | mk res s1 =>
            cases res with
            | some ra =>
              obtain ⟨receiver, amt⟩ := ra
              simp only [buyHops, hbn, hres, trace_prependEvs, returnedNone_prependEvs,
                List.singleton_append] at he ⊢
              rcases List.mem_cons.mp he with rfl | hmem
              · simp [Event.isFailedUniswap] at hfail
              · obtain ⟨ih1, ih2⟩ := ih (nth + 1) amt (some receiver) s1 e hmem hfail
                refine ⟨ih1, ?_⟩
                rw [getLast_cons_ne _ _ (List.ne_nil_of_mem hmem)]
                exact ih2
            | none =>
              simp only [buyHops, hbn, hres, Outcome.trace] at he ⊢
              rcases List.mem_singleton.mp he with rfl
              exact ⟨rfl, rfl⟩
      | Weth w =>
        cases sender with
        | some v => simp [buyHops, hbn, Outcome.trace] at he
        | none =>
          cases hres : env.transform (.Weth w) recipient nxt amount0 true s with
          | mk res s1 =>
            cases res with
            | some r0 =>
              simp only [buyHops, hbn, hres, trace_prependEvs, returnedNone_prependEvs,
                List.singleton_append] at he ⊢
              rcases List.mem_cons.mp he with rfl | hmem
              · simp [Event.isFailedUniswap] at hfail
              · obtain ⟨ih1, ih2⟩ := ih (nth + 1) cur (some recipient) s1 e hmem hfail
                refine ⟨ih1, ?_⟩
                rw [getLast_cons_ne _ _ (List.ne_nil_of_mem hmem)]
                exact ih2
            | none =>
              simp only [buyHops, hbn, hres, Outcome.trace] at he
              rcases List.mem_singleton.mp he with rfl
              simp [Event.isFailedUniswap] at hfail

/-- Any failed wrap transform inside the buy loop ends the whole loop in the
`"Weth failed"` panic (never in a `None` return). -/
theorem buyHops_wethfail {S : Type} (env : Env S) (route : List PairContextTy)
    (recipient : Addr) (amount0 : Nat) :
    ∀ (rest : List PairContextTy) (nth cur : Nat) (sender : Option Addr) (s : S),
      ∀ e ∈ (buyHops env route recipient amount0 rest nth cur sender s).trace,
        e.isFailedWeth = true →
        ∃ tr, buyHops env route recipient amount0 rest nth cur sender s
          = .panicked "Weth failed" tr := by
  intro rest
  induction rest with
  | nil => intro nth cur sender s e he; simp [buyHops, Outcome.trace] at he
  | cons pair rest2 ih =>
    intro nth cur sender s e he hfail
    cases hbn : buyNext route recipient nth with
    | none => simp [buyHops, hbn, Outcome.trace] at he
    | some nxt =>
      cases pair with
      | Uniswap p =>
        cases sender with
        | none => simp [buyHops, hbn, Outcome.trace] at he
        | some sndr =>
          cases hres : env.transform (.Uniswap p) sndr nxt cur true s with
          | mk res s1 =>
            cases res with
            | some ra =>
              obtain ⟨receiver, amt⟩ := ra
              simp only [buyHops, hbn, hres, trace_prependEvs, List.singleton_append] at he ⊢
              rcases List.mem_cons.mp he with rfl | hmem
              · simp [Event.isFailedWeth] at hfail
              · obtain ⟨tr, htr⟩ := ih (nth + 1) amt (some receiver) s1 e hmem hfail
                exact ⟨_ :: tr, by rw [htr]; rfl⟩
            | none =>
              simp only [buyHops, hbn, hres, Outcome.trace] at he
              rcases List.mem_singleton.mp he with rfl
              simp [Event.isFailedWeth] at hfail
      | Weth w =>
        cases sender with
        | some v => simp [buyHops, hbn, Outcome.trace] at he
        | none =>
          cases hres : env.transform (.Weth w) recipient nxt amount0 true s with
          | mk res s1 =>
            cases res with
            | some r0 =>
              simp only [buyHops, hbn, hres, trace_prependEvs, List.singleton_append] at he ⊢
              rcases List.mem_cons.mp he with rfl | hmem
              · simp [Event.isFailedWeth] at hfail
              · obtain ⟨tr, htr⟩ := ih (nth + 1) cur (some recipient) s1 e hmem hfail
                exact ⟨_ :: tr, by rw [htr]; rfl⟩
            | none =>
              exact ⟨[Event.transform nth (.Weth w) recipient nxt amount0 true none],
                by simp [buyHops, hbn, hres]⟩

/-- Processing a wrap hop while a sender is already threaded always panics
(the `assert!(current_sender.is_none())`, or the "Invalid weth context"
destination panic) without recording an event. -/
theorem buyHops_weth_assert {S : Type} (env : Env S) (route : List PairContextTy)
    (recipient : Addr) (amount0 : Nat) (w : Addr) (rest : List PairContextTy)
    (nth cur : Nat) (v : Addr) (s : S) :
    ∃ m, buyHops env route recipient amount0 (.Weth w :: rest) nth cur (some v) s
      = .panicked m [] := by
  cases hbn : buyNext route recipient nth with
  | none => exact ⟨"Invalid weth context", by simp [buyHops, hbn]⟩
  | some nxt => exact ⟨"assertion failed: current_sender.is_none()", by simp [buyHops, hbn]⟩

/-- Processing an AMM hop with no threaded sender always panics (the
`current_sender.unwrap()`, or the destination panic) without recording an
event. -/
theorem buyHops_unwrap_panics {S : Type} (env : Env S) (route : List PairContextTy)
    (recipient : Addr) (amount0 : Nat) (p : Addr) (rest : List PairContextTy)
    (nth cur : Nat) (s : S) :
    ∃ m, buyHops env route recipient amount0 (.Uniswap p :: rest) nth cur none s
      = .panicked m [] := by
  cases hbn : buyNext route recipient nth with
  | none => exact ⟨"Invalid weth context", by simp [buyHops, hbn]⟩
  | some nxt => exact ⟨"called Option::unwrap on a None value", by simp [buyHops, hbn]⟩

/-! ## Invariants of the sell loop -/

/-- Characterisation of the computed sell-side destination. -/
theorem sellNext_spec {S : Type} {env : Env S} {route : List PairContextTy} {nth : Nat}
    {s : S} {nxt : Addr} {s0 : S} (h : sellNext env route nth s = (nxt, s0)) :
    (nth = route.length - 1 → nxt = 0) ∧
    (nth ≠ route.length - 1 →
      (∀ a, route.getD (nth + 1) default = .Uniswap a → nxt = a) ∧
      (∀ w, route.getD (nth + 1) default = .Weth w →
        ∃ s2, nxt = (env.get_rand_caller s2).1)) := by
  unfold sellNext at h
  by_cases hf : nth = route.length - 1
  · rw [if_pos hf] at h
    injection h with h1 h2
    exact ⟨fun _ => h1.symm, fun hc => absurd hf hc⟩
  · rw [if_neg hf] at h
    cases hg : route.getD (nth + 1) default with
    | Uniswap a =>
      rw [hg] at h
      injection h with h1 h2
      refine ⟨fun hc => absurd hc hf, fun _ => ⟨?_, ?_⟩⟩
      · intro a2 hga2
        injection hga2 with h3
        rw [← h3, ← h1]
      · intro w hgw
        exact nomatch hgw
    | Weth w =>
      rw [hg] at h
      refine ⟨fun hc => absurd hc hf, fun _ => ⟨?_, ?_⟩⟩
      · intro a hga
        exact nomatch hga
      · intro w2 _
        exact ⟨s, (congrArg Prod.fst h).symm⟩

/-- The hops transformed by the sell loop are an in-order prefix of the hops
it was asked to process. -/
theorem sellHops_order {S : Type} (env : Env S) (route : List PairContextTy) :
    ∀ (rest : List PairContextTy) (nth cur : Nat) (sender : Addr) (isFirst : Bool) (s : S),
      ∃ t, transformPairs (sellHops env route rest nth cur sender isFirst s).trace ++ t
        = rest := by
  intro rest
  induction rest with
  | nil => intro nth cur sender isFirst s; exact ⟨[], rfl⟩
  | cons pair rest2 ih =>
    intro nth cur sender isFirst s
    cases hsn : sellNext env route nth s with
    | mk nxt s0 =>
      cases pair with
      | Uniswap p =>
        cases isFirst with
        | true =>
          cases hres : env.transform (.Uniswap p) sender nxt cur false
              (env.initial_transfer sender p cur s0) with
          | mk res s2 =>
            cases res with
            | some ra =>
              obtain ⟨receiver, amt⟩ := ra
              obtain ⟨t, ht⟩ := ih (nth + 1) amt receiver false s2
              refine ⟨t, ?_⟩
              simp only [sellHops, hsn, hres, sellFirstStep_true, trace_prependEvs, List.cons_append,
                List.nil_append, List.singleton_append, transformPairs]
              exact congrArg _ ht
            | none =>
              exact ⟨rest2, by
                simp [sellHops, hsn, hres, sellFirstStep_true, sellFirstStep_false, Outcome.trace, transformPairs]⟩
        | false =>
          cases hres : env.transform (.Uniswap p) sender nxt cur false s0 with
          | mk res s2 =>
            cases res with
            | some ra =>
              obtain ⟨receiver, amt⟩ := ra
              obtain ⟨t, ht⟩ := ih (nth + 1) amt receiver false s2
              refine ⟨t, ?_⟩
              simp only [sellHops, hsn, hres, sellFirstStep_false, trace_prependEvs,
                List.cons_append, List.nil_append, List.singleton_append, transformPairs]
              exact congrArg _ ht
            | none =>
              exact ⟨rest2, by
                simp [sellHops, hsn, hres, sellFirstStep_true, sellFirstStep_false, Outcome.trace, transformPairs]⟩
      | Weth w =>
        cases hres : env.transform (.Weth w) sender nxt cur false s0 with
        | mk res s1 =>
          cases res with
          | some r0 =>
            obtain ⟨t, ht⟩ := ih (nth + 1) cur sender isFirst s1
            refine ⟨t, ?_⟩
            simp only [sellHops, hsn, hres, trace_prependEvs, List.singleton_append,
              transformPairs, List.cons_append]
            exact congrArg _ ht
          | none =>
            exact ⟨rest2, by simp [sellHops, hsn, hres, sellFirstStep_true, sellFirstStep_false, Outcome.trace, transformPairs]⟩

/-- Every transform event of the sell loop obeys the sell destination rule. -/
theorem sellHops_dst {S : Type} (env : Env S) (route : List PairContextTy) :
    ∀ (rest : List PairContextTy) (nth cur : Nat) (sender : Addr) (isFirst : Bool) (s : S),
      ∀ e ∈ (sellHops env route rest nth cur sender isFirst s).trace,
        dstRuleSell env route e := by
  intro rest
  induction rest with
  | nil => intro nth cur sender isFirst s e he; simp [sellHops, Outcome.trace] at he
  | cons pair rest2 ih =>
    intro nth cur sender isFirst s e he
    cases hsn : sellNext env route nth s with
    | mk nxt s0 =>
      obtain ⟨hfin, hnot⟩ := sellNext_spec hsn
      cases pair with
      | Uniswap p =>
        cases isFirst with
        | true =>
          cases hres : env.transform (.Uniswap p) sender nxt cur false
              (env.initial_transfer sender p cur s0) with
          | mk res s2 =>
            cases res with
            | some ra =>
              obtain ⟨receiver, amt⟩ := ra
              simp only [sellHops, hsn, hres, sellFirstStep_true, trace_prependEvs, List.cons_append,
                List.nil_append, List.singleton_append] at he
              rcases List.mem_cons.mp he with rfl | he2
              · exact trivial
              · rcases List.mem_cons.mp he2 with rfl | hmem
                · exact ⟨hfin, hnot⟩
                · exact ih (nth + 1) amt receiver false s2 e hmem
            | none =>
              simp only [sellHops, hsn, hres, sellFirstStep_true, sellFirstStep_false, Outcome.trace, List.cons_append,
                List.nil_append] at he
              rcases List.mem_cons.mp he with rfl | he2
              · exact trivial
              · rcases List.mem_singleton.mp he2 with rfl
                exact ⟨hfin, hnot⟩
        | false =>
          cases hres : env.transform (.Uniswap p) sender nxt cur false s0 with
          | mk res s2 =>
            cases res with
            | some ra =>
              obtain ⟨receiver, amt⟩ := ra
              simp only [sellHops, hsn, hres, sellFirstStep_false, trace_prependEvs,
                List.cons_append, List.nil_append, List.singleton_append] at he
              rcases List.mem_cons.mp he with rfl | hmem
              · exact ⟨hfin, hnot⟩
              · exact ih (nth + 1) amt receiver false s2 e hmem
            | none =>
              simp only [sellHops, hsn, hres, sellFirstStep_true, sellFirstStep_false, Outcome.trace, List.nil_append] at he
              rcases List.mem_singleton.mp he with rfl
              exact ⟨hfin, hnot⟩
      | Weth w =>
        cases hres : env.transform (.Weth w) sender nxt cur false s0 with
        | mk res s1 =>
          cases res with
          | some r0 =>
            simp only [sellHops, hsn, hres, trace_prependEvs, List.singleton_append] at he
            rcases List.mem_cons.mp he with rfl | hmem
            · exact ⟨hfin, hnot⟩
            · exact ih (nth + 1) cur sender isFirst s1 e hmem
          | none =>
            simp only [sellHops, hsn, hres, sellFirstStep_true, sellFirstStep_false, Outcome.trace] at he
            rcases List.mem_singleton.mp he with rfl
            exact ⟨hfin, hnot⟩

/-- Once the first AMM hop has been processed (`is_first = false`) the sell
loop never records another `initial_transfer`. -/
theorem sellHops_noinit {S : Type} (env : Env S) (route : List PairContextTy) :
    ∀ (rest : List PairContextTy) (nth cur : Nat) (sender : Addr) (s : S),
      ∀ e ∈ (sellHops env route rest nth cur sender false s).trace,
        e.isInitialTransfer = false := by
  intro rest
  induction rest with
  | nil => intro nth cur sender s e he; simp [sellHops, Outcome.trace] at he
  | cons pair rest2 ih =>
    intro nth cur sender s e he
    cases hsn : sellNext env route nth s with
    | mk nxt s0 =>
      cases pair with
      | Uniswap p =>
        cases hres : env.transform (.Uniswap p) sender nxt cur false s0 with
        | mk res s2 =>
          cases res with
          | some ra =>
            obtain ⟨receiver, amt⟩ := ra
            simp only [sellHops, hsn, hres, sellFirstStep_false, trace_prependEvs,
              List.cons_append, List.nil_append, List.singleton_append] at he
            rcases List.mem_cons.mp he with rfl | hmem
            · rfl
            · exact ih (nth + 1) amt receiver s2 e hmem
          | none =>
            simp only [sellHops, hsn, hres, sellFirstStep_true, sellFirstStep_false, Outcome.trace, List.nil_append] at he
            rcases List.mem_singleton.mp he with rfl
            rfl
      | Weth w =>
        cases hres : env.transform (.Weth w) sender nxt cur false s0 with
        | mk res s1 =>
          cases res with
          | some r0 =>
            simp only [sellHops, hsn, hres, trace_prependEvs, List.singleton_append] at he
            rcases List.mem_cons.mp he with rfl | hmem
            · rfl
            · exact ih (nth + 1) cur sender s1 e hmem
          | none =>
            simp only [sellHops, hsn, hres, sellFirstStep_true, sellFirstStep_false, Outcome.trace] at he
            rcases List.mem_singleton.mp he with rfl
            rfl

/-- When the first hop handed to a fresh sell loop is an AMM pair, the very
first recorded action is the `initial_transfer` of the current sender and
amount into that pool, and no other `initial_transfer` ever follows. -/
theorem sellHops_init_first {S : Type} (env : Env S) (route : List PairContextTy)
    (p : Addr) (rest : List PairContextTy) (nth cur : Nat) (sender : Addr) (s : S) :
    ∃ tail, (sellHops env route (.Uniswap p :: rest) nth cur sender true s).trace
        = Event.initialTransfer sender p cur :: tail ∧
      ∀ e ∈ tail, e.isInitialTransfer = false := by
  cases hsn : sellNext env route nth s with
  | mk nxt s0 =>
    cases hres : env.transform (.Uniswap p) sender nxt cur false
        (env.initial_transfer sender p cur s0) with
    | mk res s2 =>
      cases res with
      | some ra =>
        obtain ⟨receiver, amt⟩ := ra
        refine ⟨Event.transform nth (.Uniswap p) sender nxt cur false (some (receiver, amt))
          :: (sellHops env route rest (nth + 1) amt receiver false s2).trace, ?_, ?_⟩
        · simp [sellHops, hsn, hres, sellFirstStep_true, sellFirstStep_false, trace_prependEvs]
        · intro e hmem
          rcases List.mem_cons.mp hmem with rfl | hmem2
          · rfl
          · exact sellHops_noinit env route rest (nth + 1) amt receiver s2 e hmem2
      | none =>
        refine ⟨[Event.transform nth (.Uniswap p) sender nxt cur false none], ?_, ?_⟩
        · simp [sellHops, hsn, hres, sellFirstStep_true, sellFirstStep_false, Outcome.trace]
        · intro e hmem
          rcases List.mem_singleton.mp hmem with rfl
          rfl

/-- Any failed AMM transform makes the sell loop return `None` and is its
final recorded action. -/
theorem sellHops_fail {S : Type} (env : Env S) (route : List PairContextTy) :
    ∀ (rest : List PairContextTy) (nth cur : Nat) (sender : Addr) (isFirst : Bool) (s : S),
      ∀ e ∈ (sellHops env route rest nth cur sender isFirst s).trace,
        e.isFailedUniswap = true →
        (sellHops env route rest nth cur sender isFirst s).returnedNone = true ∧
        (sellHops env route rest nth cur sender isFirst s).trace.getLast? = some e := by
  intro rest
  induction rest with
  | nil => intro nth cur sender isFirst s e he; simp [sellHops, Outcome.trace] at he
  | cons pair rest2 ih =>
    intro nth cur sender isFirst s e he hfail
    cases hsn : sellNext env route nth s with
    | mk nxt s0 =>
      cases pair with
      | Uniswap p =>
        cases isFirst with
        | true =>
          cases hres : env.transform (.Uniswap p) sender nxt cur false
              (env.initial_transfer sender p cur s0) with
          | mk res s2 =>
            cases res with
            | some ra =>
              obtain ⟨receiver, amt⟩ := ra
              simp only [sellHops, hsn, hres, sellFirstStep_true, trace_prependEvs, returnedNone_prependEvs,
                List.cons_append, List.nil_append, List.singleton_append] at he ⊢
              rcases List.mem_cons.mp he with rfl | he2
              · simp [Event.isFailedUniswap] at hfail
              · rcases List.mem_cons.mp he2 with rfl | hmem
                · simp [Event.isFailedUniswap] at hfail
                · obtain ⟨ih1, ih2⟩ := ih (nth + 1) amt receiver false s2 e hmem hfail
                  refine ⟨ih1, ?_⟩
                  rw [getLast_cons_ne _ _ (by simp), getLast_cons_ne _ _ (List.ne_nil_of_mem hmem)]
                  exact ih2
            | none =>
              simp only [sellHops, hsn, hres, sellFirstStep_true, sellFirstStep_false, Outcome.trace, List.cons_append,
                List.nil_append] at he ⊢
              rcases List.mem_cons.mp he with rfl | he2
              · simp [Event.isFailedUniswap] at hfail
              · rcases List.mem_singleton.mp he2 with rfl
                exact ⟨rfl, rfl⟩
        | false =>
          cases hres : env.transform (.Uniswap p) sender nxt cur false s0 with
          | mk res s2 =>
            cases res with
            | some ra =>
              obtain ⟨receiver, amt⟩ := ra
              simp only [sellHops, hsn, hres, sellFirstStep_false, trace_prependEvs,
                returnedNone_prependEvs, List.cons_append, List.nil_append,
                List.singleton_append] at he ⊢
              rcases List.mem_cons.mp he with rfl | hmem
              · simp [Event.isFailedUniswap] at hfail
              · obtain ⟨ih1, ih2⟩ := ih (nth + 1) amt receiver false s2 e hmem hfail
                refine ⟨ih1, ?_⟩
                rw [getLast_cons_ne _ _ (List.ne_nil_of_mem hmem)]
                exact ih2
            | none =>
              simp only [sellHops, hsn, hres, sellFirstStep_true, sellFirstStep_false, Outcome.trace, List.nil_append] at he ⊢
              rcases List.mem_singleton.mp he with rfl
              exact ⟨rfl, rfl⟩
      | Weth w =>
        cases hres : env.transform (.Weth w) sender nxt cur false s0 with
        | mk res s1 =>
          cases res with
          | some r0 =>
            simp only [sellHops, hsn, hres, trace_prependEvs, returnedNone_prependEvs,
              List.singleton_append] at he ⊢
            rcases List.mem_cons.mp he with rfl | hmem
            · simp [Event.isFailedUniswap] at hfail
            · obtain ⟨ih1, ih2⟩ := ih (nth + 1) cur sender isFirst s1 e hmem hfail
              refine ⟨ih1, ?_⟩
              rw [getLast_cons_ne _ _ (List.ne_nil_of_mem hmem)]
              exact ih2
          | none =>
            simp only [sellHops, hsn, hres, sellFirstStep_true, sellFirstStep_false, Outcome.trace] at he
            rcases List.mem_singleton.mp he with rfl
            simp [Event.isFailedUniswap] at hfail

/-- Any failed wrap transform inside the sell loop ends the whole loop in
the `"Weth failed"` panic. -/
theorem sellHops_wethfail {S : Type} (env : Env S) (route : List PairContextTy) :
    ∀ (rest : List PairContextTy) (nth cur : Nat) (sender : Addr) (isFirst : Bool) (s : S),
      ∀ e ∈ (sellHops env route rest nth cur sender isFirst s).trace,
        e.isFailedWeth = true →
        ∃ tr, sellHops env route rest nth cur sender isFirst s
          = .panicked "Weth failed" tr := by
  intro rest
  induction rest with
  | nil => intro nth cur sender isFirst s e he; simp [sellHops, Outcome.trace] at he
  | cons pair rest2 ih =>
    intro nth cur sender isFirst s e he hfail
    cases hsn : sellNext env route nth s with
    | mk nxt s0 =>
      cases pair with
      | Uniswap p =>
        cases isFirst with
        | true =>
          cases hres : env.transform (.Uniswap p) sender nxt cur false
              (env.initial_transfer sender p cur s0) with
          | mk res s2 =>
            cases res with
            | some ra =>
              obtain ⟨receiver, amt⟩ := ra
              simp only [sellHops, hsn, hres, sellFirstStep_true, trace_prependEvs, List.cons_append,
                List.nil_append, List.singleton_append] at he
              rcases List.mem_cons.mp he with rfl | he2
              · simp [Event.isFailedWeth] at hfail
              · rcases List.mem_cons.mp he2 with rfl | hmem
                · simp [Event.isFailedWeth] at hfail
                · obtain ⟨tr, htr⟩ := ih (nth + 1) amt receiver false s2 e hmem hfail
                  exact ⟨_ :: _ :: tr, by
                    simp only [sellHops, hsn, hres, sellFirstStep_true]
                    rw [htr]; rfl⟩
            | none =>
              simp only [sellHops, hsn, hres, sellFirstStep_true, sellFirstStep_false, Outcome.trace, List.cons_append,
                List.nil_append] at he
              rcases List.mem_cons.mp he with rfl | he2
              · simp [Event.isFailedWeth] at hfail
              · rcases List.mem_singleton.mp he2 with rfl
                simp [Event.isFailedWeth] at hfail
        | false =>
          cases hres : env.transform (.Uniswap p) sender nxt cur false s0 with
          | mk res s2 =>
            cases res with
            | some ra =>
              obtain ⟨receiver, amt⟩ := ra
              simp only [sellHops, hsn, hres, sellFirstStep_false, trace_prependEvs,
                List.cons_append, List.nil_append, List.singleton_append] at he
              rcases List.mem_cons.mp he with rfl | hmem
              · simp [Event.isFailedWeth] at hfail
              · obtain ⟨tr, htr⟩ := ih (nth + 1) amt receiver false s2 e hmem hfail
                exact ⟨_ :: tr, by
                  simp only [sellHops, hsn, hres, sellFirstStep_false]
                  rw [htr]; rfl⟩
            | none =>
              simp only [sellHops, hsn, hres, sellFirstStep_true, sellFirstStep_false, Outcome.trace, List.nil_append] at he
              rcases List.mem_singleton.mp he with rfl
              simp [Event.isFailedWeth] at hfail
      | Weth w =>
        cases hres : env.transform (.Weth w) sender nxt cur false s0 with
        | mk res s1 =>
          cases res with
          | some r0 =>
            simp only [sellHops, hsn, hres, trace_prependEvs, List.singleton_append] at he
            rcases List.mem_cons.mp he with rfl | hmem
            · simp [Event.isFailedWeth] at hfail
            · obtain ⟨tr, htr⟩ := ih (nth + 1) cur sender isFirst s1 e hmem hfail
              exact ⟨_ :: tr, by
                simp only [sellHops, hsn, hres]
                rw [htr]; rfl⟩
          | none =>
            exact ⟨[Event.transform nth (.Weth w) sender nxt cur false none],
              by simp [sellHops, hsn, hres, sellFirstStep_true, sellFirstStep_false]⟩


/-! ## Path-merge analysis (concat_path) -/

theorem lastMatchIdx_none {p : List String} {x : String} (h : lastMatchIdx p x = none) :
    ∀ j, j < p.length → p.getD j "" ≠ x := by
  induction p with
  | nil => intro j hj; simp at hj
  | cons a rest ih =>
    intro j hj
    unfold lastMatchIdx at h
    cases hr : lastMatchIdx rest x with
    | some k => rw [hr] at h; cases h
    | none =>
      rw [hr] at h
      by_cases hax : a = x
      · rw [if_pos hax] at h; cases h
      · cases j with
        | zero => simpa [List.getD_cons_zero] using hax
        | succ j2 =>
          have hj2 : j2 < rest.length := by simp [List.length_cons] at hj; omega
          simpa [List.getD_cons_succ] using ih hr j2 hj2

theorem lastMatchIdx_some {p : List String} {x : String} {i : Nat}
    (h : lastMatchIdx p x = some i) : greatestHit p x i := by
  induction p generalizing i with
  | nil => cases h
  | cons a rest ih =>
    unfold lastMatchIdx at h
    cases hr : lastMatchIdx rest x with
    | some k =>
      rw [hr] at h
      injection h with h2
      obtain ⟨hk1, hk2, hk3⟩ := ih hr
      subst h2
      refine ⟨by simp only [List.length_cons]; omega,
        by simpa [List.getD_cons_succ] using hk2, ?_⟩
      intro j hji hjlen
      cases j with
      | zero => omega
      | succ j2 =>
        rw [List.getD_cons_succ]
        exact hk3 j2 (by omega) (by simp only [List.length_cons] at hjlen; omega)
    | none =>
      rw [hr] at h
      by_cases hax : a = x
      · rw [if_pos hax] at h
        injection h with h2
        subst h2
        refine ⟨by simp only [List.length_cons]; omega,
          by simpa [List.getD_cons_zero] using hax, ?_⟩
        intro j hj0 hjlen
        cases j with
        | zero => omega
        | succ j2 =>
          rw [List.getD_cons_succ]
          exact lastMatchIdx_none hr j2 (by simp only [List.length_cons] at hjlen; omega)
      · rw [if_neg hax] at h; cases h

/-- C7: for every existing path and nonempty new path, `concat_path` keeps a
prefix of the existing path of some length `i` and appends the whole new
path, where `i` is the greatest index whose element equals the new path's
first element when one exists, and the full existing length otherwise; in
particular merging ["A","B"] with ["B","C"] yields ["A","B","C"] and merging
["A","B"] with ["X","Y"] yields ["A","B","X","Y"]. -/
theorem C7_concat_path_merge (info : SwapInfo) (h : String) (t : List String) :
    (∃ i, SwapInfo.concat_path info (h :: t)
        = some { info with path := info.path.take i ++ h :: t } ∧
      ((∃ j, j < info.path.length ∧ info.path.getD j "" = h) → greatestHit info.path h i) ∧
      ((∀ j, j < info.path.length → info.path.getD j "" ≠ h) → i = info.path.length)) ∧
    SwapInfo.concat_path { ty := .Buy, target := "T", path := ["A", "B"] } ["B", "C"]
      = some { ty := .Buy, target := "T", path := ["A", "B", "C"] } ∧
    SwapInfo.concat_path { ty := .Buy, target := "T", path := ["A", "B"] } ["X", "Y"]
      = some { ty := .Buy, target := "T", path := ["A", "B", "X", "Y"] } := by
  refine ⟨?_, rfl, rfl⟩
  obtain ⟨ty, tgt, path⟩ := info
  cases path with
  | nil =>
    refine ⟨0, rfl, ?_, fun _ => rfl⟩
    rintro ⟨j, hj, -⟩
    simp at hj
  | cons p0 pr =>
    cases hlm : lastMatchIdx (p0 :: pr) h with
    | some i =>
      have hg := lastMatchIdx_some hlm
      refine ⟨i, ?_, fun _ => hg, fun hnone => absurd hg.2.1 (hnone i hg.1)⟩
      simp [SwapInfo.concat_path, hlm]
    | none =>
      have hn := lastMatchIdx_none hlm
      refine ⟨(p0 :: pr).length, ?_, ?_, fun _ => rfl⟩
      · simp [SwapInfo.concat_path, hlm, List.take_length]
      · rintro ⟨j, hj1, hj2⟩
        exact absurd hj2 (hn j hj1)

/-- C7 witness: the theorem applied to the adjacent-continuation example. -/
theorem C7_witness :
    (∃ i, SwapInfo.concat_path { ty := .Buy, target := "T", path := ["A", "B"] } ("B" :: ["C"])
        = some { ty := SwapType.Buy, target := "T", path := (["A", "B"]).take i ++ "B" :: ["C"] } ∧
      ((∃ j, j < (["A", "B"] : List String).length ∧ (["A", "B"] : List String).getD j "" = "B") →
        greatestHit ["A", "B"] "B" i) ∧
      ((∀ j, j < (["A", "B"] : List String).length → (["A", "B"] : List String).getD j "" ≠ "B") →
        i = (["A", "B"] : List String).length)) ∧
    SwapInfo.concat_path { ty := .Buy, target := "T", path := ["A", "B"] } ["B", "C"]
      = some { ty := .Buy, target := "T", path := ["A", "B", "C"] } ∧
    SwapInfo.concat_path { ty := .Buy, target := "T", path := ["A", "B"] } ["X", "Y"]
      = some { ty := .Buy, target := "T", path := ["A", "B", "X", "Y"] } :=
  C7_concat_path_merge { ty := .Buy, target := "T", path := ["A", "B"] } "B" ["C"]

/-- C8: the code evaluated at the spec-violating input. Merging an empty new
path into a nonempty existing path evaluates `new_path[0]` inside the
backward scan and panics with an index-out-of-bounds (modelled `none`); the
claimed guard exists only vacuously when the existing path is empty, where
the merge is indeed a no-op. -/
theorem C8_empty_new_path_panics :
    SwapInfo.concat_path { ty := .Buy, target := "T", path := ["A"] } [] = none ∧
    SwapInfo.concat_path { ty := .Buy, target := "T", path := [] } []
      = some { ty := .Buy, target := "T", path := [] } :=
  ⟨rfl, rfl⟩

/-- C9 counterexample: a recognized Buy selector whose argument tuple is an
array lacking index 1, and a Sell selector whose element at index 2 is not
an address array, both panic (modelled `none`) instead of being silently
discarded with the `SwapData` unchanged. -/
theorem C9_counterexample :
    SwapData.push emptySD 7 { function := SWAP_BUY, b := .arr [] } = none ∧
    SwapData.push emptySD 7
      { function := SWAP_SELL, b := .arr [.other "a", .other "b", .other "c"] } = none :=
  ⟨rfl, rfl⟩

/-- C9 (amended): a call matching none of the four selectors is ignored with
the `SwapData` unchanged; a Buy/Sell call whose argument value is not an
array is discarded silently; but a Buy/Sell call whose argument array lacks
the expected index (1 for Buy, 2 for Sell) or holds a non-array there
panics. -/
theorem C9_discovery_filtering (sd : SwapData) (addr : Addr) (abi : BoxedABI)
    (f : List Nat) (txt : String) (data : List ABIVal) :
    (abi.function ≠ SWAP_BUY → abi.function ≠ SWAP_SELL → abi.function ≠ SWAP_DEPOSIT →
      abi.function ≠ SWAP_WITHDRAW → SwapData.push sd addr abi = some sd) ∧
    ((f = SWAP_BUY ∨ f = SWAP_SELL) →
      SwapData.push sd addr { function := f, b := .other txt } = some sd) ∧
    (data[1]? = none →
      SwapData.push sd addr { function := SWAP_BUY, b := .arr data } = none) ∧
    (data[1]? = some (.other txt) →
      SwapData.push sd addr { function := SWAP_BUY, b := .arr data } = none) ∧
    (data[2]? = none →
      SwapData.push sd addr { function := SWAP_SELL, b := .arr data } = none) ∧
    (data[2]? = some (.other txt) →
      SwapData.push sd addr { function := SWAP_SELL, b := .arr data } = none) := by
  refine ⟨?_, ?_, ?_, ?_, ?_, ?_⟩
  · intro h1 h2 h3 h4
    simp [SwapData.push, SwapInfo.try_new, h1, h2, h3, h4]
  · rintro (rfl | rfl) <;> rfl
  · intro hget
    simp [SwapData.push, SwapInfo.try_new, get_path, hget, SWAP_BUY, SWAP_SELL,
      SWAP_DEPOSIT, SWAP_WITHDRAW]
  · intro hget
    simp [SwapData.push, SwapInfo.try_new, get_path, hget, SWAP_BUY, SWAP_SELL,
      SWAP_DEPOSIT, SWAP_WITHDRAW]
  · intro hget
    simp [SwapData.push, SwapInfo.try_new, get_path, hget, SWAP_BUY, SWAP_SELL,
      SWAP_DEPOSIT, SWAP_WITHDRAW]
  · intro hget
    simp [SwapData.push, SwapInfo.try_new, get_path, hget, SWAP_BUY, SWAP_SELL,
      SWAP_DEPOSIT, SWAP_WITHDRAW]

/-- C9 witness: the amended theorem applied at concrete calls. -/
theorem C9_witness :
    SwapData.push emptySD 7 { function := [1, 2, 3, 4], b := .arr [] } = some emptySD ∧
    SwapData.push emptySD 7 { function := SWAP_BUY, b := .other "zz" } = some emptySD ∧
    SwapData.push emptySD 7 { function := SWAP_SELL, b := .arr [.other "zz"] } = none :=
  ⟨(C9_discovery_filtering emptySD 7 { function := [1, 2, 3, 4], b := .arr [] }
      SWAP_BUY "zz" []).1 (by decide) (by decide) (by decide) (by decide),
   (C9_discovery_filtering emptySD 7 { function := [1, 2, 3, 4], b := .arr [] }
      SWAP_BUY "zz" []).2.1 (Or.inl rfl),
   (C9_discovery_filtering emptySD 7 { function := [1, 2, 3, 4], b := .arr [] }
      SWAP_BUY "zz" [.other "zz"]).2.2.2.2.1 rfl⟩


/-! ## Top-level failure propagation -/

/-- Top-level form of the AMM-failure invariant for `buy` (all branches of
the entry point, wrapped-native ones included). -/
theorem buyTop_fail {S : Type} (env : Env S) (ctx : TokenContext) (amt : Nat)
    (recipient : Addr) (seed1 : List Nat) (s : S) :
    ∀ e ∈ (TokenContext.buy env ctx amt recipient seed1 s).trace,
      e.isFailedUniswap = true →
      (TokenContext.buy env ctx amt recipient seed1 s).returnedNone = true ∧
      (TokenContext.buy env ctx amt recipient seed1 s).trace.getLast? = some e := by
  intro e he hfail
  cases hW : ctx.is_weth with
  | true =>
    exfalso
    unfold TokenContext.buy at he
    rw [hW] at he
    cases hsw : ctx.swaps with
    | nil => rw [hsw] at he; simp [Outcome.trace] at he
    | cons p ps2 =>
      rw [hsw] at he
      cases hroute : p.route with
      | nil => simp [Outcome.trace, hroute] at he
      | cons hd tl =>
        cases hd with
        | Uniswap q => simp [Outcome.trace, hroute] at he
        | Weth w2 =>
          simp [Outcome.trace, hroute] at he
          subst he
          simp [Event.isFailedUniswap] at hfail
  | false =>
    cases hsw : ctx.swaps with
    | nil =>
      exfalso
      unfold TokenContext.buy at he
      rw [hW, hsw] at he
      simp [Outcome.trace] at he
    | cons p ps2 =>
      cases seed1 with
      | nil =>
        exfalso
        unfold TokenContext.buy at he
        rw [hW, hsw] at he
        simp [Outcome.trace] at he
      | cons b srest =>
        have hne : ctx.swaps ≠ [] := by rw [hsw]; exact List.cons_ne_nil p ps2
        rw [buy_eq_hops env ctx amt recipient b srest s hW hne] at he ⊢
        exact buyHops_fail env (chosenRoute ctx b) recipient amt
          ((chosenRoute ctx b).reverse) 0 amt none s e he hfail

/-- Top-level form of the AMM-failure invariant for `sell`. -/
theorem sellTop_fail {S : Type} (env : Env S) (ctx : TokenContext) (amt : Nat)
    (src : Addr) (seed1 : List Nat) (s : S) :
    ∀ e ∈ (TokenContext.sell env ctx amt src seed1 s).trace,
      e.isFailedUniswap = true →
      (TokenContext.sell env ctx amt src seed1 s).returnedNone = true ∧
      (TokenContext.sell env ctx amt src seed1 s).trace.getLast? = some e := by
  intro e he hfail
  cases hW : ctx.is_weth with
  | true =>
    exfalso
    unfold TokenContext.sell at he
    rw [hW] at he
    cases hsw : ctx.swaps with
    | nil => rw [hsw] at he; simp [Outcome.trace] at he
    | cons p ps2 =>
      rw [hsw] at he
      cases hroute : p.route with
      | nil => simp [Outcome.trace, hroute] at he
      | cons hd tl =>
        cases hd with
        | Uniswap q => simp [Outcome.trace, hroute] at he
        | Weth w2 =>
          simp [Outcome.trace, hroute] at he
          subst he
          simp [Event.isFailedUniswap] at hfail
  | false =>
    cases hsw : ctx.swaps with
    | nil =>
      exfalso
      unfold TokenContext.sell at he
      rw [hW, hsw] at he
      simp [Outcome.trace] at he
    | cons p ps2 =>
      cases seed1 with
      | nil =>
        exfalso
        unfold TokenContext.sell at he
        rw [hW, hsw] at he
        simp [Outcome.trace] at he
      | cons b srest =>
        have hne : ctx.swaps ≠ [] := by rw [hsw]; exact List.cons_ne_nil p ps2
        rw [sell_eq_hops env ctx amt src b srest s hW hne] at he ⊢
        exact sellHops_fail env (chosenRoute ctx b) (chosenRoute ctx b) 0 amt src true s
          e he hfail

/-- C3 counterexample: on a wrapped-native token whose single wrap transform
fails, `buy` still returns success (`Some(())`), not the claimed absent
result — the transform result is discarded. -/
theorem C3_counterexample :
    TokenContext.buy failEnv ctxWethTok 10 77 [0] 0
      = .ok (some ()) 1 [Event.transform 0 (.Weth 9) 77 77 10 true none] ∧
    (TokenContext.buy failEnv ctxWethTok 10 77 [0] 0).returnedNone = false :=
  ⟨rfl, rfl⟩

/-- C3 (amended): whenever an AMM hop's transform fails, the whole buy/sell
returns `None` and that failing call is the last recorded action (hard stop,
no retry), over every route and seed; but the single wrap/unwrap transform
of a wrapped-native token has its failure ignored — the call still returns
success with the failed call recorded. -/
theorem C3_failure_propagation {S : Type} (env : Env S) (ctx : TokenContext) (amt : Nat)
    (recipient src : Addr) (seed1 : List Nat) (s : S) (w : Addr)
    (rr : List PairContextTy) (ps : List PathContext) (s1 : S) :
    (∀ e ∈ (TokenContext.buy env ctx amt recipient seed1 s).trace,
      e.isFailedUniswap = true →
      (TokenContext.buy env ctx amt recipient seed1 s).returnedNone = true ∧
      (TokenContext.buy env ctx amt recipient seed1 s).trace.getLast? = some e) ∧
    (∀ e ∈ (TokenContext.sell env ctx amt src seed1 s).trace,
      e.isFailedUniswap = true →
      (TokenContext.sell env ctx amt src seed1 s).returnedNone = true ∧
      (TokenContext.sell env ctx amt src seed1 s).trace.getLast? = some e) ∧
    (ctx.is_weth = true → ctx.swaps = { route := .Weth w :: rr } :: ps →
      env.transform (.Weth w) recipient recipient amt true s = (none, s1) →
      TokenContext.buy env ctx amt recipient seed1 s
        = .ok (some ()) s1 [Event.transform 0 (.Weth w) recipient recipient amt true none]) ∧
    (ctx.is_weth = true → ctx.swaps = { route := .Weth w :: rr } :: ps →
      env.transform (.Weth w) src 0 amt false s = (none, s1) →
      TokenContext.sell env ctx amt src seed1 s
        = .ok (some ()) s1 [Event.transform 0 (.Weth w) src 0 amt false none]) := by
  refine ⟨buyTop_fail env ctx amt recipient seed1 s,
    sellTop_fail env ctx amt src seed1 s, ?_, ?_⟩
  · intro hW hsw htr
    unfold TokenContext.buy
    rw [hW, hsw]
    simp [htr]
  · intro hW hsw htr
    unfold TokenContext.sell
    rw [hW, hsw]
    simp [htr]

/-- C3 witness: a failed AMM hop in a concrete sell yields `None` with the
failed call last, and a failed wrapped-native wrap still yields success. -/
theorem C3_witness :
    ((TokenContext.sell failEnv ctxAB 10 55 [0] 0).returnedNone = true ∧
     (TokenContext.sell failEnv ctxAB 10 55 [0] 0).trace.getLast?
       = some (Event.transform 0 (.Uniswap 11) 55 22 10 false none)) ∧
    TokenContext.buy failEnv ctxWethTok 10 77 [0] 0
      = .ok (some ()) 1 [Event.transform 0 (.Weth 9) 77 77 10 true none] :=
  ⟨(C3_failure_propagation failEnv ctxAB 10 77 55 [0] 0 9 [] [] 1).2.1
      (Event.transform 0 (.Uniswap 11) 55 22 10 false none) (by decide) rfl,
   (C3_failure_propagation failEnv ctxWethTok 10 77 55 [0] 0 9 [] [] 1).2.2.1 rfl rfl rfl⟩


/-! ## Claim theorems for the traversal engine -/

/-- C1 counterexample: on the 2-hop all-AMM route `[PoolA 11, PoolB 22]` the
buy does not call `PoolB.transform` at all — it panics unwrapping the absent
initial sender, with an empty call trace, instead of executing the hops. -/
theorem C1_counterexample :
    TokenContext.buy okEnv ctxAB 10 77 [0] 0
      = .panicked "called Option::unwrap on a None value" [] ∧
    transformPairs (TokenContext.buy okEnv ctxAB 10 77 [0] 0).trace = [] :=
  ⟨rfl, rfl⟩

/-- C1 (amended): on a non-wrapped token with a non-empty route set, the buy
walks the chosen route in reverse order (the transformed hops are an
in-order prefix of the reversed route), threads each successful AMM hop's
output amount and receiver into the next call, and addresses each hop by
the buy destination rule (recipient when final, else the preceding pool,
which must be an AMM pair); the first hop processed must however be a wrap
hop, so the claimed 2-hop scenario holds for the route
`[PoolA, PoolB, W]`: buy calls `W.transform`, then `PoolB.transform` before
`PoolA.transform`, threading PoolB's output as PoolA's input, with the
final destination equal to the recipient. -/
theorem C1_buy_reverse_order {S : Type} (env : Env S) (ctx : TokenContext) (amt : Nat)
    (recipient : Addr) (b : Nat) (srest : List Nat) (s : S)
    (hW : ctx.is_weth = false) (hne : ctx.swaps ≠ []) :
    (∃ t, transformPairs (TokenContext.buy env ctx amt recipient (b :: srest) s).trace ++ t
        = (chosenRoute ctx b).reverse) ∧
    List.Chain' buyStep (TokenContext.buy env ctx amt recipient (b :: srest) s).trace ∧
    (∀ e ∈ (TokenContext.buy env ctx amt recipient (b :: srest) s).trace,
      dstRuleBuy (chosenRoute ctx b) recipient e) ∧
    (∀ (pA pB w rB rA : Addr) (aB aA : Nat) (pr0 : Addr × Nat) (t0 t1 t2 t3 : S)
      (env2 : Env S),
      env2.transform (.Weth w) recipient pB amt true t0 = (some pr0, t1) →
      env2.transform (.Uniswap pB) recipient pA amt true t1 = (some (rB, aB), t2) →
      env2.transform (.Uniswap pA) rB recipient aB true t2 = (some (rA, aA), t3) →
      TokenContext.buy env2
          { swaps := [{ route := [.Uniswap pA, .Uniswap pB, .Weth w] }],
            is_weth := false, weth_address := w }
          amt recipient (0 :: srest) t0
        = .ok (some ()) t3
            [Event.transform 0 (.Weth w) recipient pB amt true (some pr0),
             Event.transform 1 (.Uniswap pB) recipient pA amt true (some (rB, aB)),
             Event.transform 2 (.Uniswap pA) rB recipient aB true (some (rA, aA))]) := by
  rw [buy_eq_hops env ctx amt recipient b srest s hW hne]
  refine ⟨buyHops_order env (chosenRoute ctx b) recipient amt
      ((chosenRoute ctx b).reverse) 0 amt none s,
    (buyHops_chain env (chosenRoute ctx b) recipient amt
      ((chosenRoute ctx b).reverse) 0 amt none s).1,
    buyHops_dst env (chosenRoute ctx b) recipient amt
      ((chosenRoute ctx b).reverse) 0 amt none s, ?_⟩
  intro pA pB w rB rA aB aA pr0 t0 t1 t2 t3 env2 h1 h2 h3
  simp [TokenContext.buy, chosenRoute, buyHops, buyNext, h1, h2, h3, prependEvs]

/-- C1 witness: the amended theorem applied to the route
`[PoolA 11, PoolB 22, Weth 5]` under the always-succeeding oracle. -/
theorem C1_witness :
    (∃ t, transformPairs (TokenContext.buy okEnv ctxGood 10 77 (0 :: []) 0).trace ++ t
        = (chosenRoute ctxGood 0).reverse) ∧
    List.Chain' buyStep (TokenContext.buy okEnv ctxGood 10 77 (0 :: []) 0).trace ∧
    (∀ e ∈ (TokenContext.buy okEnv ctxGood 10 77 (0 :: []) 0).trace,
      dstRuleBuy (chosenRoute ctxGood 0) 77 e) ∧
    (∀ (pA pB w rB rA : Addr) (aB aA : Nat) (pr0 : Addr × Nat) (t0 t1 t2 t3 : Nat)
      (env2 : Env Nat),
      env2.transform (.Weth w) 77 pB 10 true t0 = (some pr0, t1) →
      env2.transform (.Uniswap pB) 77 pA 10 true t1 = (some (rB, aB), t2) →
      env2.transform (.Uniswap pA) rB 77 aB true t2 = (some (rA, aA), t3) →
      TokenContext.buy env2
          { swaps := [{ route := [.Uniswap pA, .Uniswap pB, .Weth w] }],
            is_weth := false, weth_address := w }
          10 77 (0 :: []) t0
        = .ok (some ()) t3
            [Event.transform 0 (.Weth w) 77 pB 10 true (some pr0),
             Event.transform 1 (.Uniswap pB) 77 pA 10 true (some (rB, aB)),
             Event.transform 2 (.Uniswap pA) rB 77 aB true (some (rA, aA))]) :=
  C1_buy_reverse_order okEnv ctxGood 10 77 0 [] 0 rfl (by decide)

/-- C2 counterexample: a sell over the non-empty route `[Weth 5]` of a
non-wrapped token performs no `initial_transfer` at all, refuting the
claimed unconditional once-per-sell initial transfer. -/
theorem C2_counterexample :
    TokenContext.sell okEnv ctxW5 10 55 [0] 0
      = .ok (some ()) 1 [Event.transform 0 (.Weth 5) 55 0 10 false (some (0, 10))] ∧
    (TokenContext.sell okEnv ctxW5 10 55 [0] 0).trace.countP
      (fun e => e.isInitialTransfer) = 0 :=
  ⟨rfl, rfl⟩

/-- C2 (amended): on a non-wrapped token with a non-empty route set, the
sell walks the chosen route in forward order; each hop obeys the sell
destination rule (zero sentinel when final, else the following pool's
address, except a freshly drawn caller address before a following wrap
hop); and when the chosen route begins with an AMM pool, exactly one
`initial_transfer(current_sender, pool_address, amount_in)` is performed,
before the first hop's transform — a route beginning with a wrap hop
performs none before that hop. The 2-hop scenario holds as claimed. -/
theorem C2_sell_forward_order {S : Type} (env : Env S) (ctx : TokenContext) (amt : Nat)
    (src : Addr) (b : Nat) (srest : List Nat) (s : S)
    (hW : ctx.is_weth = false) (hne : ctx.swaps ≠ []) :
    (∃ t, transformPairs (TokenContext.sell env ctx amt src (b :: srest) s).trace ++ t
        = chosenRoute ctx b) ∧
    (∀ e ∈ (TokenContext.sell env ctx amt src (b :: srest) s).trace,
      dstRuleSell env (chosenRoute ctx b) e) ∧
    (∀ p rrest, chosenRoute ctx b = .Uniswap p :: rrest →
      (TokenContext.sell env ctx amt src (b :: srest) s).trace.head?
        = some (Event.initialTransfer src p amt) ∧
      (TokenContext.sell env ctx amt src (b :: srest) s).trace.countP
        (fun e => e.isInitialTransfer) = 1) ∧
    (∀ (pA pB r1 r2 : Addr) (a1 a2 : Nat) (t0 t1 t2 t3 : S) (env2 : Env S),
      env2.initial_transfer src pA amt t0 = t1 →
      env2.transform (.Uniswap pA) src pB amt false t1 = (some (r1, a1), t2) →
      env2.transform (.Uniswap pB) r1 0 a1 false t2 = (some (r2, a2), t3) →
      TokenContext.sell env2
          { swaps := [{ route := [.Uniswap pA, .Uniswap pB] }],
            is_weth := false, weth_address := pB }
          amt src (0 :: srest) t0
        = .ok (some ()) t3
            [Event.initialTransfer src pA amt,
             Event.transform 0 (.Uniswap pA) src pB amt false (some (r1, a1)),
             Event.transform 1 (.Uniswap pB) r1 0 a1 false (some (r2, a2))]) := by
  rw [sell_eq_hops env ctx amt src b srest s hW hne]
  refine ⟨sellHops_order env (chosenRoute ctx b) (chosenRoute ctx b) 0 amt src true s,
    sellHops_dst env (chosenRoute ctx b) (chosenRoute ctx b) 0 amt src true s, ?_, ?_⟩
  · intro p rrest hroute
    rw [hroute]
    obtain ⟨tail, htr, hni⟩ := sellHops_init_first env (.Uniswap p :: rrest) p rrest 0 amt src s
    rw [htr]
    have hz : List.countP (fun e => e.isInitialTransfer) tail = 0 :=
      List.countP_eq_zero.mpr (fun e hmem => by simp [hni e hmem])
    refine ⟨rfl, ?_⟩
    rw [List.countP_cons_of_pos _ _ (by rfl), hz]
  · intro pA pB r1 r2 a1 a2 t0 t1 t2 t3 env2 h0 h1 h2
    simp [TokenContext.sell, chosenRoute, sellHops, sellNext, sellFirstStep, h0, h1, h2,
      prependEvs]

/-- C2 witness: the amended theorem applied to the all-AMM route
`[PoolA 11, PoolB 22]` under the always-succeeding oracle. -/
theorem C2_witness :
    (∃ t, transformPairs (TokenContext.sell okEnv ctxAB 10 55 (0 :: []) 0).trace ++ t
        = chosenRoute ctxAB 0) ∧
    (∀ e ∈ (TokenContext.sell okEnv ctxAB 10 55 (0 :: []) 0).trace,
      dstRuleSell okEnv (chosenRoute ctxAB 0) e) ∧
    (∀ p rrest, chosenRoute ctxAB 0 = .Uniswap p :: rrest →
      (TokenContext.sell okEnv ctxAB 10 55 (0 :: []) 0).trace.head?
        = some (Event.initialTransfer 55 p 10) ∧
      (TokenContext.sell okEnv ctxAB 10 55 (0 :: []) 0).trace.countP
        (fun e => e.isInitialTransfer) = 1) ∧
    (∀ (pA pB r1 r2 : Addr) (a1 a2 : Nat) (t0 t1 t2 t3 : Nat) (env2 : Env Nat),
      env2.initial_transfer 55 pA 10 t0 = t1 →
      env2.transform (.Uniswap pA) 55 pB 10 false t1 = (some (r1, a1), t2) →
      env2.transform (.Uniswap pB) r1 0 a1 false t2 = (some (r2, a2), t3) →
      TokenContext.sell env2
          { swaps := [{ route := [.Uniswap pA, .Uniswap pB] }],
            is_weth := false, weth_address := pB }
          10 55 (0 :: []) t0
        = .ok (some ()) t3
            [Event.initialTransfer 55 pA 10,
             Event.transform 0 (.Uniswap pA) 55 pB 10 false (some (r1, a1)),
             Event.transform 1 (.Uniswap pB) r1 0 a1 false (some (r2, a2))]) :=
  C2_sell_forward_order okEnv ctxAB 10 55 0 [] 0 rfl (by decide)

/-- C4 counterexample: during the buy over `[PoolA 11, Weth 5]` the wrap hop
is processed first and is mid-route (not final); it is invoked with
destination 11 — the preceding pool's address — not the recipient 77, so
"source = destination = the final recipient" fails. -/
theorem C4_counterexample :
    TokenContext.buy okEnv ctxUW 10 77 [0] 0
      = .ok (some ()) 2
          [Event.transform 0 (.Weth 5) 77 11 10 true (some (11, 10)),
           Event.transform 1 (.Uniswap 11) 77 77 10 true (some (77, 10))] ∧
    (11 : Addr) ≠ 77 :=
  ⟨rfl, by decide⟩

/-- C4 (amended): in a buy on a non-wrapped token, every wrap-hop transform
is invoked with source = the final recipient, the original input amount
(not the threaded intermediate amount), the buy direction, at loop index 0,
and with the per-hop destination (the preceding pool's address when the
wrap hop is not final, the recipient when it is); and a failing wrap
transform mid-route makes the whole buy or sell panic with "Weth failed"
instead of returning an absent result. -/
theorem C4_wrap_hop_discipline {S : Type} (env : Env S) (ctx : TokenContext) (amt : Nat)
    (recipient src : Addr) (b : Nat) (srest : List Nat) (s : S)
    (hW : ctx.is_weth = false) (hne : ctx.swaps ≠ []) :
    (∀ e ∈ (TokenContext.buy env ctx amt recipient (b :: srest) s).trace,
      wrapRuleBuy (chosenRoute ctx b) recipient amt e) ∧
    (∀ e ∈ (TokenContext.buy env ctx amt recipient (b :: srest) s).trace,
      e.isFailedWeth = true →
      ∃ tr, TokenContext.buy env ctx amt recipient (b :: srest) s
        = .panicked "Weth failed" tr) ∧
    (∀ e ∈ (TokenContext.sell env ctx amt src (b :: srest) s).trace,
      e.isFailedWeth = true →
      ∃ tr, TokenContext.sell env ctx amt src (b :: srest) s
        = .panicked "Weth failed" tr) := by
  rw [buy_eq_hops env ctx amt recipient b srest s hW hne,
    sell_eq_hops env ctx amt src b srest s hW hne]
  exact ⟨buyHops_wrap env (chosenRoute ctx b) recipient amt
      ((chosenRoute ctx b).reverse) 0 amt none s (fun _ => rfl),
    buyHops_wethfail env (chosenRoute ctx b) recipient amt
      ((chosenRoute ctx b).reverse) 0 amt none s,
    sellHops_wethfail env (chosenRoute ctx b) (chosenRoute ctx b) 0 amt src true s⟩

/-- C4 witness: the amended theorem applied to the route `[PoolA 11, Weth 5]`
under the always-succeeding oracle. -/
theorem C4_witness :
    (∀ e ∈ (TokenContext.buy okEnv ctxUW 10 77 (0 :: []) 0).trace,
      wrapRuleBuy (chosenRoute ctxUW 0) 77 10 e) ∧
    (∀ e ∈ (TokenContext.buy okEnv ctxUW 10 77 (0 :: []) 0).trace,
      e.isFailedWeth = true →
      ∃ tr, TokenContext.buy okEnv ctxUW 10 77 (0 :: []) 0
        = .panicked "Weth failed" tr) ∧
    (∀ e ∈ (TokenContext.sell okEnv ctxUW 10 55 (0 :: []) 0).trace,
      e.isFailedWeth = true →
      ∃ tr, TokenContext.sell okEnv ctxUW 10 55 (0 :: []) 0
        = .panicked "Weth failed" tr) :=
  C4_wrap_hop_discipline okEnv ctxUW 10 77 55 0 [] 0 rfl (by decide)

/-- C5: a buy or sell on a non-wrapped token with an empty route set
returns `None` at once — same state, no recorded call; with a non-empty
route set the outcome depends only on `routes[seed[0] mod routes.len()]`
(`chosenRoute`), so any two contexts and seed heads selecting equal routes
produce identical outcomes. -/
theorem C5_route_selection {S : Type} (env : Env S) (ctx ctx2 : TokenContext)
    (amt : Nat) (recipient src : Addr) (seed1 : List Nat) (b b2 : Nat)
    (t1 t2 : List Nat) (s : S) :
    (ctx.is_weth = false → ctx.swaps = [] →
      TokenContext.buy env ctx amt recipient seed1 s = .ok none s [] ∧
      TokenContext.sell env ctx amt src seed1 s = .ok none s []) ∧
    (ctx.is_weth = false → ctx2.is_weth = false → ctx.swaps ≠ [] → ctx2.swaps ≠ [] →
      chosenRoute ctx b = chosenRoute ctx2 b2 →
      TokenContext.buy env ctx amt recipient (b :: t1) s
        = TokenContext.buy env ctx2 amt recipient (b2 :: t2) s ∧
      TokenContext.sell env ctx amt src (b :: t1) s
        = TokenContext.sell env ctx2 amt src (b2 :: t2) s) := by
  constructor
  · intro hW hsw
    refine ⟨?_, ?_⟩
    · unfold TokenContext.buy
      rw [hW, hsw]
      simp
    · unfold TokenContext.sell
      rw [hW, hsw]
      simp
  · intro hW hW2 hne hne2 hcr
    refine ⟨?_, ?_⟩
    · rw [buy_eq_hops env ctx amt recipient b t1 s hW hne,
        buy_eq_hops env ctx2 amt recipient b2 t2 s hW2 hne2, hcr]
    · rw [sell_eq_hops env ctx amt src b t1 s hW hne,
        sell_eq_hops env ctx2 amt src b2 t2 s hW2 hne2, hcr]

/-- C5 witness: empty-route immediacy on a concrete context, and equal
outcomes for a duplicated route set selected through a different seed. -/
theorem C5_witness :
    (TokenContext.buy okEnv ctxEmpty 10 77 [0] 0 = .ok none 0 [] ∧
     TokenContext.sell okEnv ctxEmpty 10 55 [0] 0 = .ok none 0 []) ∧
    (TokenContext.buy okEnv ctxAB 10 77 (0 :: []) 0
       = TokenContext.buy okEnv ctxABdup 10 77 (3 :: []) 0 ∧
     TokenContext.sell okEnv ctxAB 10 55 (0 :: []) 0
       = TokenContext.sell okEnv ctxABdup 10 55 (3 :: []) 0) :=
  ⟨(C5_route_selection okEnv ctxEmpty ctxEmpty 10 77 55 [0] 0 0 [] [] 0).1 rfl rfl,
   (C5_route_selection okEnv ctxAB ctxABdup 10 77 55 [0] 0 3 [] [] 0).2 rfl rfl
     (by decide) (by decide) (by decide)⟩

/-- C6: on a wrapped-native token (`is_weth = true`, first hop of the first
route a wrap hop) buy and sell each invoke exactly one wrap/unwrap
transform, for any seed: buy as a deposit (recipient as both source and
destination, `reverse = true`), sell as a withdraw (zero-sentinel
destination, `reverse = false`); the outcome never consults the seed-driven
route selection nor any other hop. -/
theorem C6_weth_token {S : Type} (env : Env S) (ctx : TokenContext) (amt : Nat)
    (recipient src : Addr) (seed1 seed2 : List Nat) (s : S) (w : Addr)
    (rr : List PairContextTy) (ps : List PathContext)
    (hW : ctx.is_weth = true)
    (hswaps : ctx.swaps = { route := .Weth w :: rr } :: ps) :
    TokenContext.buy env ctx amt recipient seed1 s
      = .ok (some ()) (env.transform (.Weth w) recipient recipient amt true s).2
          [Event.transform 0 (.Weth w) recipient recipient amt true
            (env.transform (.Weth w) recipient recipient amt true s).1] ∧
    TokenContext.sell env ctx amt src seed2 s
      = .ok (some ()) (env.transform (.Weth w) src 0 amt false s).2
          [Event.transform 0 (.Weth w) src 0 amt false
            (env.transform (.Weth w) src 0 amt false s).1] := by
  constructor
  · unfold TokenContext.buy
    rw [hW, hswaps]
    simp
  · unfold TokenContext.sell
    rw [hW, hswaps]
    simp

/-- C6 witness: the theorem applied to a concrete wrapped-native context,
with the single deposit-shaped and withdraw-shaped calls evaluated. -/
theorem C6_witness :
    TokenContext.buy okEnv ctxWethTok 10 77 [0] 0
      = .ok (some ()) 1 [Event.transform 0 (.Weth 9) 77 77 10 true (some (77, 10))] ∧
    TokenContext.sell okEnv ctxWethTok 10 55 [9] 0
      = .ok (some ()) 1 [Event.transform 0 (.Weth 9) 55 0 10 false (some (0, 10))] :=
  C6_weth_token okEnv ctxWethTok 10 77 55 [0] [9] 0 9 [] [] rfl rfl

/-- C10: the threaded buy sender starts absent, so a chosen route whose
last element is an AMM pair makes buy panic while processing its first hop
— before any transform call (empty trace) and instead of returning `None`;
and reaching a wrap hop after the first processed hop (sender already
present) likewise panics without recording a call. -/
theorem C10_first_hop_must_wrap {S : Type} (env : Env S) (ctx : TokenContext) (amt : Nat)
    (recipient : Addr) (b : Nat) (srest : List Nat) (s : S) (p w v : Addr)
    (route2 rest : List PairContextTy) (nth cur : Nat) :
    (ctx.is_weth = false → ctx.swaps ≠ [] →
      (chosenRoute ctx b).getLast? = some (.Uniswap p) →
      ∃ m, TokenContext.buy env ctx amt recipient (b :: srest) s = .panicked m []) ∧
    (∃ m, buyHops env route2 recipient amt (.Weth w :: rest) nth cur (some v) s
      = .panicked m []) := by
  constructor
  · intro hW hne hlast
    rw [buy_eq_hops env ctx amt recipient b srest s hW hne]
    have h1 : (chosenRoute ctx b).reverse.head? = some (.Uniswap p) := by
      rw [List.head?_reverse]
      exact hlast
    cases hrv : (chosenRoute ctx b).reverse with
    | nil => rw [hrv] at h1; cases h1
    | cons x xs =>
      rw [hrv] at h1
      injection h1 with h2
      subst h2
      exact buyHops_unwrap_panics env (chosenRoute ctx b) recipient amt p xs 0 amt s
  · exact buyHops_weth_assert env route2 recipient amt w rest nth cur v s

/-- C10 witness: the theorem applied to the all-AMM route of `ctxAB` (last
hop `Uniswap 22`) and to a concrete mid-loop wrap-hop state. -/
theorem C10_witness :
    (∃ m, TokenContext.buy okEnv ctxAB 10 77 (0 :: []) 0 = .panicked m []) ∧
    (∃ m, buyHops okEnv [] 77 10 [.Weth 5] 0 10 (some 55) 0 = .panicked m []) :=
  ⟨(C10_first_hop_must_wrap okEnv ctxAB 10 77 0 [] 0 22 5 55 [] [] 0 10).1 rfl
     (by decide) (by decide),
   (C10_first_hop_must_wrap okEnv ctxAB 10 77 0 [] 0 22 5 55 [] [.Weth 5] 0 10).2⟩

end ItyFuzz
